import Mathlib

/-! Shallow embedding of the best-first descent engine of aligner_seed2.cpp
    (Bowtie 2).  Components that the source file uses but whose definitions
    live in headers absent from src (aligner_seed2.h / edit.h: position-record
    flags, redundancy checker, outgoing-edge ranker, heap, alignment sink,
    arena factories) are modelled from the spec and marked as such in their
    doc comments.  The FM-index (bt2_idx.h) and the scoring scheme are
    external collaborators per the spec and are modelled as abstract
    structures of functions.  Machine integers: TScore is modelled as Int,
    SA offsets and read offsets as Nat; root priorities (float in the source)
    are modelled as Int, which none of the claims depend on. -/

namespace Seed2

abbrev TScore := Int

def aget {α : Type} [Inhabited α] (l : List α) (i : Nat) : α := l.getD i default

def aset {α : Type} (l : List α) (i : Nat) (a : α) : List α := l.set i a

def qidx (f : Fin 4 → Nat) (c : Nat) : Nat := if h : c < 4 then f ⟨c, h⟩ else 0

def finOf (c : Nat) : Fin 4 := if h : c < 4 then ⟨c, h⟩ else ⟨0, by decide⟩

/-- ASCII nucleotide to 2-bit code, as the asc2dna table of the source. -/
def asc2dna (ch : Nat) : Nat :=
  if ch = 65 then 0 else if ch = 67 then 1 else if ch = 71 then 2
  else if ch = 84 then 3 else 4

/-- Code to ASCII nucleotide, as the string ACGTN indexed in the source. -/
def dnaChr (i : Nat) : Nat :=
  if i = 0 then 65 else if i = 1 then 67 else if i = 2 then 71
  else if i = 3 then 84 else 78

inductive EditType where
  | mm
  | readGap
  | refGap
deriving DecidableEq, Repr

/-- Modelled from the spec: the Edit record (edit.h is not in src).  pos is
    the 5-prime offset, chr the reference character, qchr the read character
    (both ASCII), pos2 the gap-chain position used for read-gap extension. -/
structure Edit where
  pos : Nat
  chr : Nat
  qchr : Nat
  etype : EditType
  pos2 : Int := 0
deriving DecidableEq, Repr

def Edit.isReadGap (e : Edit) : Bool := e.etype = EditType.readGap

def Edit.isRefGap (e : Edit) : Bool := e.etype = EditType.refGap

def Edit.isMismatch (e : Edit) : Bool := e.etype = EditType.mm

/-- Lexicographic priority (penalty, depth, width, root priority): lower
    penalty first, deeper first at equal penalty, narrower SA range first,
    then the root priority. -/
structure DescentPriority where
  pen : TScore
  depth : Nat
  width : Nat
  rootpri : Int
deriving DecidableEq, Repr

/-- Modelled from the spec: strict comparison of priorities, lexicographic in
    (penalty, minus depth, width, root priority). -/
def DescentPriority.plt (p q : DescentPriority) : Bool :=
  if p.pen ≠ q.pen then p.pen < q.pen
  else if p.depth ≠ q.depth then q.depth < p.depth
  else if p.width ≠ q.width then p.width < q.width
  else p.rootpri < q.rootpri

/-- Modelled from the spec: one-shot per-position exploration flags (the
    DescentPosFlags bitfield of aligner_seed2.h, which is not in src).
    A true flag means the corresponding branch is still unexplored. -/
structure DescentPosFlags where
  mmf : Fin 4 → Bool
  rdgf : Fin 4 → Bool
  rfgf : Bool
deriving DecidableEq

def DescentPosFlags.reset : DescentPosFlags :=
  { mmf := fun _ => true, rdgf := fun _ => true, rfgf := true }

/-- Modelled from the spec: true iff every branching option has been claimed. -/
def DescentPosFlags.exhausted (f : DescentPosFlags) : Bool :=
  (List.finRange 4).all (fun j => !f.mmf j && !f.rdgf j) && !f.rfgf

def DescentPosFlags.claimMM (f : DescentPosFlags) (j : Fin 4) : DescentPosFlags :=
  { f with mmf := Function.update f.mmf j false }

def DescentPosFlags.claimRdg (f : DescentPosFlags) (j : Fin 4) : DescentPosFlags :=
  { f with rdgf := Function.update f.rdgf j false }

def DescentPosFlags.claimRfg (f : DescentPosFlags) : DescentPosFlags :=
  { f with rfgf := false }

/-- The position record: read character, the four-way SA range quads in both
    indices, and the exploration flags. -/
structure DescentPos where
  c : Int
  topf : Fin 4 → Nat
  botf : Fin 4 → Nat
  topb : Fin 4 → Nat
  botb : Fin 4 → Nat
  flags : DescentPosFlags
deriving DecidableEq

def DescentPos.reset : DescentPos :=
  { c := -1, topf := fun _ => 0, botf := fun _ => 0, topb := fun _ => 0,
    botb := fun _ => 0, flags := DescentPosFlags.reset }

instance : Inhabited DescentPos := ⟨DescentPos.reset⟩

/-- Redundancy key: (strand, al5pi, al5pf, reference span, topf, botf). -/
structure RKey where
  fw : Bool
  al5pi : Nat
  al5pf : Nat
  rfsz : Int
  topf : Nat
  botf : Nat
deriving DecidableEq, Repr

abbrev RedState := List (RKey × TScore)

/-- Modelled from the spec: the redundancy filter stores admitted penalties
    per key (aligner_seed2.h is not in src).  contains is the read-only
    planning query: true iff the key was already admitted at a penalty less
    than or equal to pen. -/
def reContains (st : RedState) (k : RKey) (pen : TScore) : Bool :=
  st.any (fun e => decide (e.1 = k ∧ e.2 ≤ pen))

/-- Modelled from the spec: check records pen for the key and reports true
    unless the key was previously admitted at a penalty at most pen, in which
    case it reports false and records nothing. -/
def reCheck (st : RedState) (k : RKey) (pen : TScore) : Bool × RedState :=
  if reContains st k pen then (false, st) else (true, (k, pen) :: st)

/-- External collaborator per the spec: the scoring scheme. -/
structure Scoring where
  mm : Nat → Nat → TScore
  readGapOpen : TScore
  readGapExtend : TScore
  refGapOpen : TScore
  refGapExtend : TScore
  gapbar : Nat

/-- The query in both orientations with qualities; get yields the
    (base, quality) pair at a 5-prime offset given the strand. -/
structure DescentQuery where
  seq : List Nat
  qual : List Nat
  seqrc : List Nat
  qualrc : List Nat

def DescentQuery.length (q : DescentQuery) : Nat := q.seq.length

def DescentQuery.get (q : DescentQuery) (off5p : Nat) (fw : Bool) : Nat × Nat :=
  if fw then (q.seq.getD off5p 4, q.qual.getD off5p 0)
  else (q.seqrc.getD off5p 4, q.qualrc.getD off5p 0)

def DescentQuery.getc (q : DescentQuery) (off5p : Nat) (fw : Bool) : Nat :=
  (q.get off5p fw).1

/-- External collaborator per the spec: the bidirectional FM-index interface
    (bt2_idx.h is out of scope).  mapBiLFEx takes the stepping range and the
    initial prime range and yields the four destination quads (t, b, tp, bp);
    mapLF1 takes a row and yields the character (or -1) and the mapped row. -/
structure Ebwt where
  ftabChars : Nat
  fchr : Nat → Nat
  ftabLoHi : List Nat → Nat → Bool → Nat × Nat
  mapBiLFEx : Nat → Nat → Nat → Nat →
    (Fin 4 → Nat) × (Fin 4 → Nat) × (Fin 4 → Nat) × (Fin 4 → Nat)
  mapLF1 : Nat → Int × Nat

structure DescentRoot where
  off5p : Nat
  l2r : Bool
  fw : Bool
  pri : Int

instance : Inhabited DescentRoot := ⟨{ off5p := 0, l2r := true, fw := true, pri := 0 }⟩

/-- Per-root configuration: the consistency function cons mapping depth to
    the maximum admissible cumulative penalty.  (The expol policy field is
    not read by the engine in src and is omitted.) -/
structure DescentConfig where
  cons : Nat → TScore

instance : Inhabited DescentConfig := ⟨{ cons := fun _ => 0 }⟩

/-- An outgoing edge: the edit, its 5-prime offset, its priority and the
    index of the position record holding its exploration flag. -/
structure DescentEdge where
  e : Edit
  off5p : Nat
  pri : DescentPriority
  posFlag : Nat
deriving DecidableEq, Repr

instance : Inhabited DescentEdge :=
  ⟨{ e := { pos := 0, chr := 0, qchr := 0, etype := EditType.mm },
     off5p := 0, pri := { pen := 0, depth := 0, width := 0, rootpri := 0 },
     posFlag := 0 }⟩

/-- Modelled from the spec: insertion into the ranker order (stable: a new
    edge goes after edges of equal priority). -/
def rankInsert (e : DescentEdge) : List DescentEdge → List DescentEdge
  | [] => [e]
  | x :: xs => if DescentPriority.plt e.pri x.pri then e :: x :: xs else x :: rankInsert e xs

/-- Modelled from the spec: the bounded ranker keeps the five best edges. -/
def rankUpdate (out : List DescentEdge) (e : DescentEdge) : List DescentEdge :=
  (rankInsert e out).take 5

/-- A descent node.  posid is the index of the first owned position record;
    the source initializes it to a sentinel (numeric_limits max) that is
    never read before being assigned, so we use 0. -/
structure Descent where
  rid : Nat
  al5pi : Nat
  al5pf : Nat
  l2r : Bool
  topf : Nat
  botf : Nat
  topb : Nat
  botb : Nat
  descid : Nat
  parent : Option Nat
  pen : TScore
  posid : Nat
  len : Nat
  out : List DescentEdge
  edit : Option Edit
  lastRecalc : Bool
  gapadd : Int
  off5p_i : Nat
deriving DecidableEq

instance : Inhabited Descent :=
  ⟨{ rid := 0, al5pi := 0, al5pf := 0, l2r := true, topf := 0, botf := 0,
     topb := 0, botb := 0, descid := 0, parent := none, pen := 0, posid := 0,
     len := 0, out := [], edit := none, lastRecalc := true, gapadd := 0,
     off5p_i := 0 }⟩

def Descent.root (d : Descent) : Bool := d.parent.isNone

def Descent.isEmptyOut (d : Descent) : Bool := d.out.isEmpty

/-- Modelled from the spec: the heap is a deterministic min-structure on
    (priority, descent id); we keep it as a sorted list with stable insert. -/
abbrev THeap := List (DescentPriority × Nat)

def heapInsert (p : DescentPriority) (id : Nat) : THeap → THeap
  | [] => [(p, id)]
  | x :: xs => if DescentPriority.plt p x.1 then (p, id) :: x :: xs else x :: heapInsert p id xs

def heapPop : THeap → Option ((DescentPriority × Nat) × THeap)
  | [] => none
  | x :: xs => some (x, xs)

/-- One recorded hit: SA ranges in both indices, leaf descent, root, the
    trailing edit and the penalty. -/
structure DescentHit where
  topf : Nat
  botf : Nat
  topb : Nat
  botb : Nat
  descid : Nat
  rid : Nat
  e : Option Edit
  pen : TScore
deriving DecidableEq

abbrev Sink := List DescentHit

/-- Modelled from the spec: the sink appends a hit unless an identical SA
    range was already recorded (deduplication of identical ranges, section
    4.7 of the spec; DescentAlignmentSink is declared in the missing header). -/
def reportAlignment (s : Sink) (h : DescentHit) : Sink :=
  if s.any (fun x => decide (x.topf = h.topf ∧ x.botf = h.botf ∧
      x.topb = h.topb ∧ x.botb = h.botb)) then s else s ++ [h]

/-! ## recalcOutgoing -/

inductive EdgeTag where
  | mm
  | rdgExt
  | rfgExt
  | rdgOpen
  | rfgOpen
deriving DecidableEq, Repr

/-- Context of one position iteration of recalcOutgoing: the loop-varying
    locals of the source, captured at the top of the iteration. -/
structure IterCtx where
  fw : Bool
  l2r : Bool
  toward3p : Bool
  rootpri : Int
  pen : TScore
  gapadd : Int
  re : RedState
  sc : Scoring
  dIdx : Nat
  depth : Nat
  off5p : Nat
  off3p : Nat
  cur5pi : Nat
  cur5pf : Nat
  off5p_i : Nat
  edit : Option Edit
  diff : TScore
  c : Nat
  qq : Nat
  t : Fin 4 → Nat
  b : Fin 4 → Nat
  ftf : Fin 4 → Nat
  fbf : Fin 4 → Nat
  top : Nat
  bot : Nat
  topp : Nat
  botp : Nat

/-- Accumulator threaded through the candidate stages of one iteration. -/
structure StageSt where
  flags : DescentPosFlags
  out : List DescentEdge
  emitted : List (DescentEdge × EdgeTag)
  nout : Nat

def emitEdge (s : StageSt) (ed : DescentEdge) (tag : EdgeTag) : StageSt :=
  { s with out := rankUpdate s.out ed,
           emitted := s.emitted ++ [(ed, tag)],
           nout := s.nout + 1 }

def mmPenOf (cx : IterCtx) : TScore := cx.sc.mm cx.c cx.qq

/-- One mismatch candidate (the body of the j-loop over the four bases). -/
def mmStageJ (cx : IterCtx) (s : StageSt) (j : Fin 4) : StageSt :=
  if (j : Nat) = cx.c then s
  else if cx.b j ≤ cx.t j then s
  else
    let avail := s.flags.mmf j
    let s1 := { s with flags := s.flags.claimMM j }
    if !avail then s1
    else if reContains cx.re
        { fw := cx.fw, al5pi := cx.cur5pi, al5pf := cx.cur5pf,
          rfsz := (cx.cur5pf : Int) - cx.cur5pi + 1 + cx.gapadd,
          topf := cx.ftf j, botf := cx.fbf j } (cx.pen + mmPenOf cx) then s1
    else
      emitEdge s1
        { e := { pos := cx.off5p, chr := dnaChr j, qchr := dnaChr cx.c,
                 etype := EditType.mm },
          off5p := cx.off5p,
          pri := { pen := cx.pen + mmPenOf cx, depth := cx.depth,
                   width := cx.b j - cx.t j, rootpri := cx.rootpri },
          posFlag := cx.dIdx }
        EdgeTag.mm

def mmStage (cx : IterCtx) (s : StageSt) : StageSt :=
  if mmPenOf cx ≤ cx.diff then (List.finRange 4).foldl (mmStageJ cx) s else s

def cur5piI (cx : IterCtx) : Nat := if cx.toward3p then cx.cur5pi else cx.cur5pi + 1

def cur5pfI (cx : IterCtx) : Nat := if cx.toward3p then cx.cur5pf - 1 else cx.cur5pf

/-- One read-gap candidate (shared by the extension and open stages; the cost
    and the pos2 bookkeeping differ). -/
def rdgStageJ (cx : IterCtx) (cost : TScore) (withPos2 : Bool) (tag : EdgeTag)
    (s : StageSt) (j : Fin 4) : StageSt :=
  if cx.b j ≤ cx.t j then s
  else
    let avail := s.flags.rdgf j
    let s1 := { s with flags := s.flags.claimRdg j }
    if !avail then s1
    else if reContains cx.re
        { fw := cx.fw, al5pi := cur5piI cx, al5pf := cur5pfI cx,
          rfsz := (cx.cur5pf : Int) - cx.cur5pi + 1 + cx.gapadd,
          topf := cx.ftf j, botf := cx.fbf j } (cx.pen + cost) then s1
    else
      let p2 : Int := if withPos2 then
        (match cx.edit with
         | some e0 => e0.pos2
         | none => 0) + (if cx.l2r then 1 else -1) else 0
      emitEdge s1
        { e := { pos := cx.off5p + (if cx.l2r then 0 else 1), chr := dnaChr j,
                 qchr := 45, etype := EditType.readGap, pos2 := p2 },
          off5p := cx.off5p,
          pri := { pen := cx.pen + cost, depth := cx.depth,
                   width := cx.b j - cx.t j, rootpri := cx.rootpri },
          posFlag := cx.dIdx }
        tag

def rdgStage (cx : IterCtx) (cost : TScore) (withPos2 : Bool) (tag : EdgeTag)
    (s : StageSt) : StageSt :=
  (List.finRange 4).foldl (rdgStageJ cx cost withPos2 tag) s

/-- One reference-gap candidate (extension or open according to cost/tag). -/
def rfgStage (cx : IterCtx) (cost : TScore) (tag : EdgeTag) (s : StageSt) : StageSt :=
  let avail := s.flags.rfgf
  let s1 := { s with flags := s.flags.claimRfg }
  if !avail then s1
  else
    let topfX := if cx.l2r then cx.topp else cx.top
    let botfX := if cx.l2r then cx.botp else cx.bot
    let nrefal : Int := (cx.cur5pf : Int) - cx.cur5pi + cx.gapadd
    if reContains cx.re
        { fw := cx.fw, al5pi := cx.cur5pi, al5pf := cx.cur5pf,
          rfsz := nrefal, topf := topfX, botf := botfX } (cx.pen + cost) then s1
    else
      emitEdge s1
        { e := { pos := cx.off5p, chr := 45, qchr := dnaChr cx.c,
                 etype := EditType.refGap },
          off5p := cx.off5p,
          pri := { pen := cx.pen + cost, depth := cx.depth,
                   width := cx.bot - cx.top, rootpri := cx.rootpri },
          posFlag := cx.dIdx }
        tag

/-- Whether all surviving range width at this position lies under the
    matching base. -/
def allmatchOf (cx : IterCtx) : Bool :=
  (cx.b 0 - cx.t 0) + (cx.b 1 - cx.t 1) + (cx.b 2 - cx.t 2) + (cx.b 3 - cx.t 3)
    = qidx cx.b cx.c - qidx cx.t cx.c

/-- Run a stage only when its guard holds. -/
def applyIf (b : Bool) (f : StageSt → StageSt) (s : StageSt) : StageSt :=
  if b then f s else s

/-- The read-gap extension guard of one iteration: at the descent's own root
    offset, with an incoming read-gap edit and extension cost within budget. -/
def rdexOf (cx : IterCtx) : Bool :=
  decide (cx.off5p = cx.off5p_i) && cx.edit.isSome &&
    decide (cx.sc.readGapExtend ≤ cx.diff) &&
    (match cx.edit with | some e0 => e0.isReadGap | none => false)

/-- The reference-gap extension guard of one iteration. -/
def rfexOf (cx : IterCtx) : Bool :=
  decide (cx.off5p = cx.off5p_i) && cx.edit.isSome &&
    decide (cx.sc.refGapExtend ≤ cx.diff) &&
    (match cx.edit with | some e0 => e0.isRefGap | none => false)

/-- Whether gaps are allowed at this position (gapbar distance from both
    read ends). -/
def gapsAllowedOf (cx : IterCtx) : Bool :=
  decide (cx.sc.gapbar ≤ cx.off5p) && decide (cx.sc.gapbar ≤ cx.off3p)

/-- The candidate-enumeration part of one iteration of the recalcOutgoing
    position loop (the body guarded by not-exhausted and positive budget):
    mismatches, then inside the gapsAllowed block the gap extensions (only at
    the root offset of a gap descent) and the gap opens (only when not all
    mass lies under the matching base). -/
def iterStages (cx : IterCtx) (s : StageSt) : StageSt :=
  if !s.flags.exhausted && decide (0 < cx.diff) then
    let gapsAllowed := gapsAllowedOf cx
    let allmatch := allmatchOf cx
    let rdex := rdexOf cx
    let rfex := rfexOf cx
    let s1 := mmStage cx s
    let s2 := applyIf (gapsAllowed && rdex)
      (rdgStage cx cx.sc.readGapExtend true EdgeTag.rdgExt) s1
    let s3 := applyIf (gapsAllowed && rfex)
      (rfgStage cx cx.sc.refGapExtend EdgeTag.rfgExt) s2
    let s4 := applyIf (gapsAllowed && (!allmatch && decide (cx.sc.readGapOpen ≤ cx.diff) && !rdex))
      (rdgStage cx cx.sc.readGapOpen false EdgeTag.rdgOpen) s3
    let s5 := applyIf (gapsAllowed && (!allmatch && decide (cx.sc.refGapOpen ≤ cx.diff) && !rfex))
      (rfgStage cx cx.sc.refGapOpen EdgeTag.rfgOpen) s4
    s5
  else s

/-- Loop state of the recalcOutgoing position walk. -/
structure RecalcSt where
  dIdx : Nat
  depth : Nat
  off5p : Nat
  off3p : Nat
  cur5pi : Nat
  cur5pf : Nat
  top : Nat
  bot : Nat
  topp : Nat
  botp : Nat
  pf : List DescentPos
  out : List DescentEdge
  emitted : List (DescentEdge × EdgeTag)
  nout : Nat

/-- Fixed context of the recalcOutgoing walk. -/
structure RecalcCtx where
  q : DescentQuery
  sc : Scoring
  re : RedState
  cons : Nat → TScore
  fw : Bool
  l2r : Bool
  toward3p : Bool
  rootpri : Int
  pen : TScore
  gapadd : Int
  edit : Option Edit
  off5p_i : Nat
  al5pi : Nat
  al5pf : Nat
  extrai : Nat
  extraf : Nat

def mkIterCtx (rc : RecalcCtx) (st : RecalcSt) : IterCtx :=
  let pos := aget st.pf st.dIdx
  let p := rc.q.get st.off5p rc.fw
  { fw := rc.fw, l2r := rc.l2r, toward3p := rc.toward3p, rootpri := rc.rootpri,
    pen := rc.pen, gapadd := rc.gapadd, re := rc.re, sc := rc.sc,
    dIdx := st.dIdx, depth := st.depth, off5p := st.off5p, off3p := st.off3p,
    cur5pi := st.cur5pi, cur5pf := st.cur5pf, off5p_i := rc.off5p_i,
    edit := rc.edit, diff := rc.cons st.depth - rc.pen, c := p.1, qq := p.2,
    t := if rc.l2r then pos.topb else pos.topf,
    b := if rc.l2r then pos.botb else pos.botf,
    ftf := pos.topf, fbf := pos.botf,
    top := st.top, bot := st.bot, topp := st.topp, botp := st.botp }

/-- One full iteration of the position loop: run the candidate stages, write
    the claimed flags back, advance the cursors; the Bool result is the break
    flag of the source loop (read end reached). -/
def recalcIter (rc : RecalcCtx) (st : RecalcSt) : RecalcSt × Bool :=
  let cx := mkIterCtx rc st
  let pos := aget st.pf st.dIdx
  let s0 : StageSt := { flags := pos.flags, out := st.out,
                        emitted := st.emitted, nout := st.nout }
  let s1 := iterStages cx s0
  let pf1 := aset st.pf st.dIdx { pos with flags := s1.flags }
  let st1 :=
    { st with
      pf := pf1
      out := s1.out
      emitted := s1.emitted
      nout := s1.nout
      dIdx := st.dIdx + 1
      depth := st.depth + 1 }
  if rc.toward3p then
    if st.off3p = 0 then (st1, true)
    else
      ({ st1 with
         off5p := st.off5p + 1
         off3p := st.off3p - 1
         cur5pf := st.cur5pf + 1
         top := qidx cx.t cx.c
         bot := qidx cx.b cx.c
         topp := qidx (if rc.l2r then pos.topf else pos.topb) cx.c
         botp := qidx (if rc.l2r then pos.botf else pos.botb) cx.c }, false)
  else
    if st.off5p = 0 then (st1, true)
    else
      ({ st1 with
         off5p := st.off5p - 1
         off3p := st.off3p + 1
         cur5pi := st.cur5pi - 1
         top := qidx cx.t cx.c
         bot := qidx cx.b cx.c
         topp := qidx (if rc.l2r then pos.topf else pos.topb) cx.c
         botp := qidx (if rc.l2r then pos.botf else pos.botb) cx.c }, false)

def recalcLoop (rc : RecalcCtx) : Nat → RecalcSt → RecalcSt
  | 0, st => st
  | fuel + 1, st =>
    if rc.al5pi - rc.extrai ≤ st.off5p ∧ st.off5p ≤ rc.al5pf + rc.extraf then
      let r := recalcIter rc st
      if r.2 then r.1 else recalcLoop rc fuel r.1
    else st

/-- Modelled from the spec: a cached edge of the ranker re-claims the
    exploration flag of its originating position record (updateFlags of the
    missing header). -/
def edgeUpdateFlags (pf : List DescentPos) (e : DescentEdge) : List DescentPos :=
  let pos := aget pf e.posFlag
  let fl := pos.flags
  let fl' := match e.e.etype with
    | EditType.mm => fl.claimMM (finOf (asc2dna e.e.chr))
    | EditType.readGap => fl.claimRdg (finOf (asc2dna e.e.chr))
    | EditType.refGap => fl.claimRfg
  aset pf e.posFlag { pos with flags := fl' }

structure RecalcOut where
  d : Descent
  pf : List DescentPos
  nout : Nat
  emitted : List (DescentEdge × EdgeTag)

/-- Recalculate the outgoing edges of a descent, walking every owned
    position record from the root outward, offering each legal candidate to
    the ranker.  Returns the updated descent (ranker, lastRecalc), the
    position arena with claimed flags, and the list of offered candidates. -/
def recalcOutgoing (q : DescentQuery) (sc : Scoring) (re : RedState)
    (pf : List DescentPos) (rs : List DescentRoot) (cs : List DescentConfig)
    (d : Descent) : RecalcOut :=
  let rt := aget rs d.rid
  let fw := rt.fw
  let rootpri := rt.pri
  let toward3p := d.l2r = fw
  let off5p := d.off5p_i
  let off3p := q.length - off5p - 1
  let cur5pi := if toward3p then d.al5pi else off5p
  let cur5pf := if toward3p then off5p else d.al5pf
  let depth := if toward3p then off5p - d.al5pi else d.al5pf - off5p
  let extrai := if toward3p then 0 else (if 0 < d.al5pi then 1 else 0)
  let extraf := if toward3p then (if d.al5pf < q.length - 1 then 1 else 0) else 0
  let rc : RecalcCtx :=
    { q := q, sc := sc, re := re, cons := (aget cs d.rid).cons, fw := fw,
      l2r := d.l2r, toward3p := toward3p, rootpri := rootpri, pen := d.pen,
      gapadd := d.gapadd, edit := d.edit, off5p_i := d.off5p_i,
      al5pi := d.al5pi, al5pf := d.al5pf, extrai := extrai, extraf := extraf }
  let st0 : RecalcSt :=
    { dIdx := d.posid, depth := depth, off5p := off5p, off3p := off3p,
      cur5pi := cur5pi, cur5pf := cur5pf,
      top := if d.l2r then d.topb else d.topf,
      bot := if d.l2r then d.botb else d.botf,
      topp := if d.l2r then d.topf else d.topb,
      botp := if d.l2r then d.botf else d.botb,
      pf := pf, out := [], emitted := [], nout := 0 }
  let stF := recalcLoop rc (q.length + 2) st0
  let pfF := stF.out.foldl edgeUpdateFlags stF.pf
  { d := { d with out := stF.out, lastRecalc := stF.nout ≤ 5 },
    pf := pfF, nout := stF.nout, emitted := stF.emitted }

/-! ## followMatches -/

/-- The no-branch depth threshold of followMatches. -/
def nobranchDepth : Nat := 20

/-- Whether the ftab width fits within the read on the current side, from the
    guard at the top of the root block of followMatches. -/
def fmFtabFits (qlen : Nat) (toward3p : Bool) (off5p : Nat) (ftabLen : Nat) : Bool :=
  if toward3p then !decide (qlen < ftabLen + off5p) else !decide (off5p < ftabLen)

/-- The full condition under which the root block takes the ftab shortcut. -/
def fmUseFtab (qlen : Nat) (toward3p : Bool) (off5p : Nat) (ftabLen : Nat) : Bool :=
  decide (1 < ftabLen) && decide (ftabLen ≤ nobranchDepth) &&
    fmFtabFits qlen toward3p off5p ftabLen

/-- The direction-normalization loop at the top of followMatches: flip the
    direction when the current extension side is already at its extremity.
    Yields (direction, toward3p, initial 5-prime offset).  (When both
    extremities are already aligned, which the source excludes by assertion,
    the fallback value is irrelevant.) -/
def fmAdjustStep (qlen al5pi al5pf : Nat) (l2r fw : Bool) : Option (Bool × Nat) :=
  let toward3p := l2r = fw
  if toward3p then
    if al5pf = qlen - 1 then none
    else some (toward3p, if al5pi = al5pf then al5pi else al5pf + 1)
  else
    if al5pi = 0 then none
    else some (toward3p, if al5pi = al5pf then al5pi else al5pi - 1)

def fmAdjust (qlen al5pi al5pf : Nat) (l2r fw : Bool) : Bool × Bool × Nat :=
  match fmAdjustStep qlen al5pi al5pf l2r fw with
  | some (t3, o) => (l2r, t3, o)
  | none =>
    match fmAdjustStep qlen al5pi al5pf (!l2r) fw with
    | some (t3, o) => (!l2r, t3, o)
    | none => (l2r, l2r = fw, 0)

/-- State after the root block of followMatches, before the step loop.
    ok is false when followMatches returns false right away (empty SA range
    at the first step, or the root redundancy check failed). -/
structure FMMid where
  ok : Bool
  d : Descent
  pf : List DescentPos
  re : RedState
  topf : Nat
  botf : Nat
  topb : Nat
  botb : Nat
  off5p : Nat
  off3p : Nat
  hitEnd : Bool
  done : Bool
  firstPos : Bool
  usedFtab : Bool

/-- The root block of followMatches: first step via the ftab shortcut or a
    single fchr step, followed by the root redundancy check. -/
def fmRoot (q : DescentQuery) (ebf ebb : Ebwt) (fw toward3p l2r : Bool)
    (d0 : Descent) (re : RedState) (pf : List DescentPos)
    (off5p0 off3p0 : Nat) : FMMid :=
  let ftabLen := ebf.ftabChars
  if fmUseFtab q.length toward3p off5p0 ftabLen then
    let seqCh := if fw then q.seq else q.seqrc
    let off_r2l0 := if fw then off5p0 else q.length - off5p0 - 1
    let off_r2l := if l2r then off_r2l0 else off_r2l0 - (ftabLen - 1)
    let fl := ebf.ftabLoHi seqCh off_r2l false
    let topf1 := fl.1
    let botf1 := fl.2
    if botf1 - topf1 = 0 then
      { ok := false, d := d0, pf := pf, re := re, topf := topf1, botf := botf1,
        topb := 0, botb := 0, off5p := off5p0, off3p := off3p0,
        hitEnd := false, done := false, firstPos := true, usedFtab := true }
    else
      let c_r2l := seqCh.getD off_r2l 4
      let off_l2r0 := if fw then off5p0 else q.length - off5p0 - 1
      let off_l2r := if l2r then off_l2r0 else off_l2r0 - (ftabLen - 1)
      let bl := ebb.ftabLoHi seqCh off_l2r false
      let topb1 := bl.1
      let botb1 := bl.2
      let c_l2r := seqCh.getD (off_l2r + ftabLen - 1) 4
      let off5p1 := if toward3p then off5p0 + ftabLen else off5p0 - ftabLen
      let off3p1 := if toward3p then off3p0 - ftabLen else off3p0 + ftabLen
      let d1 :=
        if toward3p then
          { d0 with len := d0.len + ftabLen, al5pf := d0.al5pf + (ftabLen - 1) }
        else
          { d0 with len := d0.len + ftabLen, al5pi := d0.al5pi - (ftabLen - 1) }
      let hitEnd1 :=
        if toward3p then decide (d1.al5pf = q.length - 1) else decide (d1.al5pi = 0)
      let done1 :=
        if toward3p then hitEnd1 && decide (d1.al5pi = 0)
        else hitEnd1 && decide (d1.al5pf = q.length - 1)
      let posid1 := pf.length
      let pf1 := pf ++ List.replicate ftabLen DescentPos.reset
      let idL := posid1 + (ftabLen - 1)
      let cE := if l2r then c_l2r else c_r2l
      let pf2 := aset pf1 idL
        { c := (cE : Int),
          topf := Function.update (fun _ => 0) (finOf cE) topf1,
          botf := Function.update (fun _ => 0) (finOf cE) botf1,
          topb := Function.update (fun _ => 0) (finOf cE) topb1,
          botb := Function.update (fun _ => 0) (finOf cE) botb1,
          flags := DescentPosFlags.reset }
      let d2 := { d1 with posid := posid1 }
      let k : RKey :=
        { fw := fw, al5pi := d2.al5pi, al5pf := d2.al5pf,
          rfsz := (d2.al5pf : Int) - d2.al5pi + 1 + d2.gapadd,
          topf := topf1, botf := botf1 }
      let ck := reCheck re k d2.pen
      if !ck.1 then
        { ok := false, d := d2, pf := pf2, re := re, topf := topf1,
          botf := botf1, topb := topb1, botb := botb1, off5p := off5p1,
          off3p := off3p1, hitEnd := hitEnd1, done := done1,
          firstPos := false, usedFtab := true }
      else
        { ok := true, d := d2, pf := pf2, re := ck.2, topf := topf1,
          botf := botf1, topb := topb1, botb := botb1, off5p := off5p1,
          off3p := off3p1, hitEnd := hitEnd1, done := done1,
          firstPos := false, usedFtab := true }
  else
    let rdc := q.getc off5p0 fw
    let topf1 := ebf.fchr rdc
    let botf1 := ebf.fchr (rdc + 1)
    if botf1 - topf1 = 0 then
      { ok := false, d := d0, pf := pf, re := re, topf := topf1, botf := botf1,
        topb := topf1, botb := botf1, off5p := off5p0, off3p := off3p0,
        hitEnd := false, done := false, firstPos := true, usedFtab := false }
    else
      let off5p1 := if toward3p then off5p0 + 1 else off5p0 - 1
      let off3p1 := if toward3p then off3p0 - 1 else off3p0 + 1
      let d1 := { d0 with len := d0.len + 1 }
      let hitEnd1 :=
        if toward3p then decide (d1.al5pf = q.length - 1) else decide (d1.al5pi = 0)
      let done1 :=
        if toward3p then hitEnd1 && decide (d1.al5pi = 0)
        else hitEnd1 && decide (d1.al5pf = q.length - 1)
      let posid1 := pf.length
      let pf2 := aset (pf ++ [DescentPos.reset]) posid1
        { c := (rdc : Int),
          topf := Function.update (fun _ => 0) (finOf rdc) topf1,
          botf := Function.update (fun _ => 0) (finOf rdc) botf1,
          topb := Function.update (fun _ => 0) (finOf rdc) topf1,
          botb := Function.update (fun _ => 0) (finOf rdc) botf1,
          flags := DescentPosFlags.reset }
      let d2 := { d1 with posid := posid1 }
      let k : RKey :=
        { fw := fw, al5pi := d2.al5pi, al5pf := d2.al5pf,
          rfsz := (d2.al5pf : Int) - d2.al5pi + 1 + d2.gapadd,
          topf := topf1, botf := botf1 }
      let ck := reCheck re k d2.pen
      if !ck.1 then
        { ok := false, d := d2, pf := pf2, re := re, topf := topf1,
          botf := botf1, topb := topf1, botb := botf1, off5p := off5p1,
          off3p := off3p1, hitEnd := hitEnd1, done := done1,
          firstPos := false, usedFtab := false }
      else
        { ok := true, d := d2, pf := pf2, re := ck.2, topf := topf1,
          botf := botf1, topb := topf1, botb := botf1, off5p := off5p1,
          off3p := off3p1, hitEnd := hitEnd1, done := done1,
          firstPos := false, usedFtab := false }

/-- Loop state of the step-by-step extension loop of followMatches. -/
structure FMLoopSt where
  d : Descent
  pf : List DescentPos
  re : RedState
  topf : Nat
  botf : Nat
  topb : Nat
  botb : Nat
  off5p : Nat
  off3p : Nat
  firstPos : Bool
  blocValid : Bool
  branches : Bool
  hitEnd : Bool
  done : Bool
  fail : Bool

/-- One iteration of the extension loop: a bidirectional LF step (mapBiLFEx
    when the range width exceeds one, mapLF1 otherwise), installation of the
    fresh position record, the per-step redundancy check, and the advance. -/
def fmIter (q : DescentQuery) (ebf ebb : Ebwt) (fw toward3p l2r : Bool)
    (st : FMLoopSt) : FMLoopSt :=
  let rdc := q.getc st.off5p fw
  let width := st.botf - st.topf
  let eb := if l2r then ebb else ebf
  let step :=
    if st.blocValid then
      let stepTop := if l2r then st.topb else st.topf
      let stepBot := if l2r then st.botb else st.botf
      let primeT := if l2r then st.topf else st.topb
      let primeB := if l2r then st.botf else st.botb
      let r := eb.mapBiLFEx stepTop stepBot primeT primeB
      let t := r.1
      let b := r.2.1
      let tp := r.2.2.1
      let bp := r.2.2.2
      (t, b, tp, bp, decide (qidx b rdc ≤ qidx t rdc),
        st.branches || decide (qidx b rdc - qidx t rdc < width))
    else
      let ntop := if l2r then st.topb else st.topf
      let r := eb.mapLF1 ntop
      let cc := r.1
      let ntop1 := r.2
      let fail1 := decide (cc ≠ (rdc : Int))
      if _h : 0 ≤ cc ∧ cc < 4 then
        let jc := finOf cc.toNat
        ((Function.update (fun _ => 0) jc ntop1 : Fin 4 → Nat),
         (Function.update (fun _ => 0) jc (ntop1 + 1) : Fin 4 → Nat),
         (Function.update (fun _ => 0) jc (if l2r then st.topf else st.topb) : Fin 4 → Nat),
         (Function.update (fun _ => 0) jc (if l2r then st.botf else st.botb) : Fin 4 → Nat),
         fail1, st.branches || fail1)
      else
        ((fun _ => 0), (fun _ => 0), (fun _ => 0), (fun _ => 0),
         fail1, st.branches || fail1)
  let t := step.1
  let b := step.2.1
  let tp := step.2.2.1
  let bp := step.2.2.2.1
  let fail1 := step.2.2.2.2.1
  let branches1 := step.2.2.2.2.2
  let topf1 := if l2r then qidx tp rdc else qidx t rdc
  let botf1 := if l2r then qidx bp rdc else qidx b rdc
  let topb1 := if l2r then qidx t rdc else qidx tp rdc
  let botb1 := if l2r then qidx b rdc else qidx bp rdc
  let tf := if l2r then tp else t
  let bf := if l2r then bp else b
  let tb := if l2r then t else tp
  let bb := if l2r then b else bp
  let posid1 := if st.firstPos then st.pf.length else st.d.posid
  let pf1 := st.pf ++ [DescentPos.reset]
  let pf2 := aset pf1 (posid1 + st.d.len)
    { c := (rdc : Int), topf := tf, botf := bf, topb := tb, botb := bb,
      flags := DescentPosFlags.reset }
  let chk :=
    if !fail1 then
      let al5pi1 := if toward3p then st.d.al5pi else st.d.al5pi - 1
      let al5pf1 := if toward3p then st.d.al5pf + 1 else st.d.al5pf
      let k : RKey :=
        { fw := fw, al5pi := al5pi1, al5pf := al5pf1,
          rfsz := (al5pf1 : Int) - al5pi1 + 1 + st.d.gapadd,
          topf := topf1, botf := botf1 }
      let ck := reCheck st.re k st.d.pen
      (!ck.1, ck.2)
    else (true, st.re)
  let fail2 := chk.1
  let re1 := chk.2
  let adv :=
    if !fail2 then
      if toward3p then
        let al5pf2 := st.d.al5pf + 1
        let hitEnd1 := decide (al5pf2 = q.length - 1)
        ({ st.d with al5pf := al5pf2, len := st.d.len + 1, posid := posid1 },
         st.off5p + 1, st.off3p - 1, hitEnd1, hitEnd1 && decide (st.d.al5pi = 0))
      else
        let al5pi2 := st.d.al5pi - 1
        let hitEnd1 := decide (al5pi2 = 0)
        ({ st.d with al5pi := al5pi2, len := st.d.len + 1, posid := posid1 },
         st.off5p - 1, st.off3p + 1, hitEnd1, hitEnd1 && decide (st.d.al5pf = q.length - 1))
    else ({ st.d with posid := posid1 }, st.off5p, st.off3p, false, false)
  let d1 := adv.1
  let hitEnd1 := adv.2.2.2.1
  let done1 := adv.2.2.2.2
  let blocValid1 :=
    if !fail2 && !hitEnd1 then
      if l2r then !decide (qidx bb rdc - qidx tb rdc = 1)
      else !decide (qidx bf rdc - qidx tf rdc = 1)
    else st.blocValid
  { d := d1, pf := pf2, re := re1, topf := topf1, botf := botf1,
    topb := topb1, botb := botb1, off5p := adv.2.1, off3p := adv.2.2.1,
    firstPos := false, blocValid := blocValid1, branches := branches1,
    hitEnd := hitEnd1, done := done1, fail := fail2 }

def fmLoop (q : DescentQuery) (ebf ebb : Ebwt) (fw toward3p l2r : Bool) :
    Nat → FMLoopSt → FMLoopSt
  | 0, st => st
  | fuel + 1, st =>
    if st.fail || st.hitEnd then st
    else fmLoop q ebf ebb fw toward3p l2r fuel (fmIter q ebf ebb fw toward3p l2r st)

/-- Shape of the result of the first step at a root: either a failed first
    position with the position arena untouched, or a fresh block of reset
    position records appended with the last one filled in and the descent
    pointing at the first fresh record. -/
def fmRootCharP (pf : List DescentPos) (r : FMMid) : Prop :=
  (r.ok = false ∧ r.firstPos = true ∧ r.pf = pf) ∨
  (r.d.posid = pf.length ∧ r.firstPos = false ∧
    ∃ n v, r.pf = aset (pf ++ List.replicate n DescentPos.reset)
      (pf.length + (n - 1)) v)

/-- Result of followMatches: the updated descent, arenas, filter and sink,
    the out flags of the source (branches, hitEnd, done), the bounce range,
    and whether the root block used the ftab shortcut. -/
structure FMOut where
  d : Descent
  pf : List DescentPos
  re : RedState
  sink : Sink
  succ : Bool
  branches : Bool
  hitEnd : Bool
  done : Bool
  tfB : Nat
  bfB : Nat
  tbB : Nat
  bbB : Nat
  usedFtab : Bool

/-- The part of followMatches after the root block: early returns for a
    failed first step, a done or bounced root jump, otherwise the step loop
    followed by the report or bounce-range returns. -/
def fmFinish (q : DescentQuery) (ebf ebb : Ebwt) (fw toward3p l2r : Bool)
    (sink : Sink) (mid : FMMid) : FMOut :=
  if !mid.ok then
    { d := mid.d, pf := mid.pf, re := mid.re, sink := sink, succ := false,
      branches := false, hitEnd := false, done := false, tfB := 0, bfB := 0,
      tbB := 0, bbB := 0, usedFtab := mid.usedFtab }
  else if mid.done then
    { d := mid.d, pf := mid.pf, re := mid.re,
      sink := reportAlignment sink
        { topf := mid.topf, botf := mid.botf, topb := mid.topb,
          botb := mid.botb, descid := mid.d.descid, rid := mid.d.rid,
          e := none, pen := mid.d.pen },
      succ := true, branches := false, hitEnd := mid.hitEnd, done := true,
      tfB := 0, bfB := 0, tbB := 0, bbB := 0, usedFtab := mid.usedFtab }
  else if mid.hitEnd then
    { d := mid.d, pf := mid.pf, re := mid.re, sink := sink, succ := true,
      branches := false, hitEnd := true, done := false, tfB := mid.topf,
      bfB := mid.botf, tbB := mid.topb, bbB := mid.botb,
      usedFtab := mid.usedFtab }
  else
    let bloc0 :=
      if l2r then !decide (mid.botb - mid.topb = 1)
      else !decide (mid.botf - mid.topf = 1)
    let st0 : FMLoopSt :=
      { d := mid.d, pf := mid.pf, re := mid.re, topf := mid.topf,
        botf := mid.botf, topb := mid.topb, botb := mid.botb,
        off5p := mid.off5p, off3p := mid.off3p, firstPos := mid.firstPos,
        blocValid := bloc0, branches := false, hitEnd := false, done := false,
        fail := false }
    let stF := fmLoop q ebf ebb fw toward3p l2r (q.length + 2) st0
    if stF.done then
      { d := stF.d, pf := stF.pf, re := stF.re,
        sink := reportAlignment sink
          { topf := stF.topf, botf := stF.botf, topb := stF.topb,
            botb := stF.botb, descid := stF.d.descid, rid := stF.d.rid,
            e := none, pen := stF.d.pen },
        succ := true, branches := stF.branches, hitEnd := stF.hitEnd,
        done := true, tfB := 0, bfB := 0, tbB := 0, bbB := 0,
        usedFtab := mid.usedFtab }
    else if stF.hitEnd then
      { d := stF.d, pf := stF.pf, re := stF.re, sink := sink, succ := true,
        branches := stF.branches, hitEnd := true, done := false,
        tfB := stF.topf, bfB := stF.botf, tbB := stF.topb, bbB := stF.botb,
        usedFtab := mid.usedFtab }
    else
      { d := stF.d, pf := stF.pf, re := stF.re, sink := sink, succ := true,
        branches := stF.branches, hitEnd := false, done := false, tfB := 0,
        bfB := 0, tbB := 0, bbB := 0, usedFtab := mid.usedFtab }

/-- Advance a descent by following read matches as far as possible: the
    direction normalization, the root block (ftab or fchr first step plus
    root redundancy check), then the step loop; a full alignment is reported
    to the sink, a non-done extremity yields the bounce range. -/
def followMatches (q : DescentQuery) (ebf ebb : Ebwt) (rs : List DescentRoot)
    (dIn : Descent) (re : RedState) (pf : List DescentPos) (sink : Sink) : FMOut :=
  let fw := (aget rs dIn.rid).fw
  let adj := fmAdjust q.length dIn.al5pi dIn.al5pf dIn.l2r fw
  let l2r := adj.1
  let toward3p := adj.2.1
  let off5p0 := adj.2.2
  let d0 := { dIn with l2r := l2r, off5p_i := off5p0 }
  let off3p0 := q.length - off5p0 - 1
  let mid :=
    if d0.root then fmRoot q ebf ebb fw toward3p l2r d0 re pf off5p0 off3p0
    else
      { ok := true, d := d0, pf := pf, re := re, topf := d0.topf,
        botf := d0.botf, topb := d0.topb, botb := d0.botb, off5p := off5p0,
        off3p := off3p0, hitEnd := false, done := false, firstPos := true,
        usedFtab := false }
  fmFinish q ebf ebb fw toward3p l2r sink mid

/-! ## init, bounce, followBestOutgoing, driver -/

/-- The whole mutable state owned by one go() invocation: redundancy filter,
    the two arenas, the heap and the sink.  Modelled from the spec: the
    EFactory arenas (aligner_seed2.h) are lists whose alloc appends one
    default record and whose resize truncates to a watermark. -/
structure EngineSt where
  re : RedState
  df : List Descent
  pf : List DescentPos
  heap : THeap
  sink : Sink

/-- Arguments of the branch version of Descent init. -/
structure InitArgs where
  rid : Nat
  al5pi : Nat
  al5pf : Nat
  topf : Nat
  botf : Nat
  topb : Nat
  botb : Nat
  l2r : Bool
  descid : Nat
  parent : Nat
  pen : TScore
  e : Option Edit

/-- The field assignments at the top of the branch version of init: all
    fields from the arguments, gapadd inherited from the parent and adjusted
    by the incoming edit when it is a gap.  (posid is set to a never-read
    sentinel in the source; we use 0.) -/
def descentInitFields (a : InitArgs) (parentGapadd : Int) : Descent :=
  { rid := a.rid, al5pi := a.al5pi, al5pf := a.al5pf, l2r := a.l2r,
    topf := a.topf, botf := a.botf, topb := a.topb, botb := a.botb,
    descid := a.descid, parent := some a.parent, pen := a.pen, posid := 0,
    len := 0, out := [], edit := a.e, lastRecalc := true,
    gapadd := parentGapadd +
      (match a.e with
       | some e0 => if e0.isReadGap then 1 else if e0.isRefGap then -1 else 0
       | none => 0),
    off5p_i := 0 }

/-- The arguments bounce passes to the child init: same extremes and penalty
    as the parent, opposite direction, empty incoming edit, and the SA range
    reached at the extremity. -/
def bounceInitArgs (d : Descent) (tf bf tb bb : Nat) (id : Nat) : InitArgs :=
  { rid := d.rid, al5pi := d.al5pi, al5pf := d.al5pf, topf := tf, botf := bf,
    topb := tb, botb := bb, l2r := !d.l2r, descid := id, parent := d.descid,
    pen := d.pen, e := none }

/-- The failure rollback of a saved-watermark init call.  Modelled from the
    spec: on failure both arenas are resized back to the watermarks saved
    immediately before the allocation. -/
def rollbackStep (p : Bool × EngineSt) (dfsz pfsz : Nat) : Bool × EngineSt :=
  if p.1 then (true, p.2)
  else (false, { p.2 with df := p.2.df.take dfsz, pf := p.2.pf.take pfsz })

/-- The shared tail of both init overloads: when followMatches succeeded,
    recalculate outgoing edges, store the updated descent and push onto the
    heap when the out list is non-empty; report success when there are
    outgoing edges or the bounce child succeeded. -/
def initFinish (q : DescentQuery) (sc : Scoring) (rs : List DescentRoot)
    (cs : List DescentConfig) (descid : Nat) (fm : FMOut)
    (bres : Bool × EngineSt) : Bool × EngineSt :=
  let bounceSucc := bres.1
  let st2 := bres.2
  if fm.succ then
    let r := recalcOutgoing q sc st2.re st2.pf rs cs fm.d
    let df3 := aset st2.df descid r.d
    let heap1 :=
      if !r.d.out.isEmpty then
        heapInsert (r.d.out.headD default).pri descid st2.heap
      else st2.heap
    (!r.d.out.isEmpty || bounceSucc,
     { re := st2.re, df := df3, pf := r.pf, heap := heap1, sink := st2.sink })
  else (bounceSucc, st2)

/-- The body of the branch init with the bounce recursion abstracted into a
    continuation: set the fields, follow matches, bounce when an extremity
    was reached with the read not yet fully aligned, then finish. -/
def initBranchBody (q : DescentQuery) (sc : Scoring) (ebf ebb : Ebwt)
    (rs : List DescentRoot) (cs : List DescentConfig)
    (bounceRes : FMOut → EngineSt → Bool × EngineSt)
    (a : InitArgs) (st : EngineSt) : Bool × EngineSt :=
  let parentGapadd := (aget st.df a.parent).gapadd
  let d0 := descentInitFields a parentGapadd
  let df1 := aset st.df a.descid d0
  let fm := followMatches q ebf ebb rs d0 st.re st.pf st.sink
  let df2 := aset df1 a.descid fm.d
  let st1 : EngineSt :=
    { re := fm.re, df := df2, pf := fm.pf, heap := st.heap, sink := fm.sink }
  let bres :=
    if fm.hitEnd && !fm.done then bounceRes fm st1
    else (false, st1)
  initFinish q sc rs cs a.descid fm bres

/-- Initialize a new branch descent: set the fields, follow matches, bounce
    when an extremity was reached with the read not yet fully aligned,
    recalculate outgoing edges and push onto the heap when non-empty.
    The Nat fuel bounds the bounce recursion depth (at most one bounce can
    occur along a chain in reachable states).  Returns false when the node
    produced neither outgoing edges nor a successful bounce child; the
    bounce child is created with saved arena watermarks and rolled back on
    failure. -/
def initBranch (q : DescentQuery) (sc : Scoring) (ebf ebb : Ebwt)
    (rs : List DescentRoot) (cs : List DescentConfig) :
    Nat → InitArgs → EngineSt → Bool × EngineSt
  | 0, a, st =>
    initBranchBody q sc ebf ebb rs cs (fun _ st1 => (false, st1)) a st
  | bfuel + 1, a, st =>
    initBranchBody q sc ebf ebb rs cs
      (fun fm st1 =>
        rollbackStep
          (initBranch q sc ebf ebb rs cs bfuel
            (bounceInitArgs fm.d fm.tfB fm.bfB fm.tbB fm.bbB st1.df.length)
            { st1 with df := st1.df ++ [default] })
          st1.df.length st1.pf.length)
      a st

/-- The save-alloc-init-rollback pattern shared by every caller of the branch
    init: run the given init, and on failure resize both arenas back to the
    saved watermarks. -/
def initRollbackWith (ini : InitArgs → EngineSt → Bool × EngineSt)
    (dfsz pfsz : Nat) (a : InitArgs) (st : EngineSt) : Bool × EngineSt :=
  let p := ini a st
  if p.1 then (true, p.2)
  else (false, { p.2 with df := p.2.df.take dfsz, pf := p.2.pf.take pfsz })

/-- Create the bounce child: save the arena watermarks, allocate the child
    descent, initialize it with the parent's extremes and penalty, opposite
    direction, empty edit and the extremity range, rolling the arenas back
    on failure. -/
def bounce (q : DescentQuery) (sc : Scoring) (ebf ebb : Ebwt)
    (rs : List DescentRoot) (cs : List DescentConfig) (bfuel : Nat)
    (d : Descent) (tf bf tb bb : Nat) (st : EngineSt) : Bool × EngineSt :=
  let dfsz := st.df.length
  let pfsz := st.pf.length
  let id := dfsz
  initRollbackWith (initBranch q sc ebf ebb rs cs bfuel) dfsz pfsz
    (bounceInitArgs d tf bf tb bb id) { st with df := st.df ++ [default] }

/-- Initialize a new root descent (the root overload of init). -/
def initRoot (q : DescentQuery) (sc : Scoring) (ebf ebb : Ebwt)
    (rs : List DescentRoot) (cs : List DescentConfig) (bfuel : Nat)
    (rid descid : Nat) (st : EngineSt) : Bool × EngineSt :=
  let rt := aget rs rid
  let d0 : Descent :=
    { rid := rid, al5pi := rt.off5p, al5pf := rt.off5p, l2r := rt.l2r,
      topf := 0, botf := 0, topb := 0, botb := 0, descid := descid,
      parent := none, pen := 0, posid := 0, len := 0, out := [], edit := none,
      lastRecalc := true, gapadd := 0, off5p_i := 0 }
  let df1 := aset st.df descid d0
  let fm := followMatches q ebf ebb rs d0 st.re st.pf st.sink
  let df2 := aset df1 descid fm.d
  let st1 : EngineSt :=
    { re := fm.re, df := df2, pf := fm.pf, heap := st.heap, sink := fm.sink }
  let bres :=
    if fm.hitEnd && !fm.done then
      bounce q sc ebf ebb rs cs bfuel fm.d fm.tfB fm.bfB fm.tbB fm.bbB st1
    else (false, st1)
  initFinish q sc rs cs descid fm bres

/-- The rollback wrapper for the root init, as used by the driver seeding
    loop. -/
def rootInitRollbackWith (ini : Nat → Nat → EngineSt → Bool × EngineSt)
    (dfsz pfsz : Nat) (rid descid : Nat) (st : EngineSt) : Bool × EngineSt :=
  let p := ini rid descid st
  if p.1 then (true, p.2)
  else (false, { p.2 with df := p.2.df.take dfsz, pf := p.2.pf.take pfsz })

/-- New extents, descent offset and completion flags implied by taking an
    outgoing edge (the toward3p case analysis of followBestOutgoing; for a
    read gap the read character at the edit offset is not consumed). -/
structure EdgeExtents where
  al5pi_new : Nat
  al5pf_new : Nat
  doff : Nat
  hitEnd : Bool
  done : Bool

def edgeExtents (q : DescentQuery) (toward3p : Bool) (e : DescentEdge)
    (d : Descent) : EdgeExtents :=
  let edoff := e.off5p
  if toward3p then
    let al5pf1 := if e.e.isReadGap then edoff - 1 else edoff
    let hitEnd1 := decide (al5pf1 = q.length - 1)
    { al5pi_new := d.al5pi, al5pf_new := al5pf1, doff := edoff - d.off5p_i,
      hitEnd := hitEnd1, done := hitEnd1 && decide (d.al5pi = 0) }
  else
    let al5pi1 := if e.e.isReadGap then edoff + 1 else edoff
    let hitEnd1 := decide (al5pi1 = 0)
    { al5pi_new := al5pi1, al5pf_new := d.al5pf, doff := d.off5p_i - edoff,
      hitEnd := hitEnd1, done := hitEnd1 && decide (d.al5pf = q.length - 1) }

/-- Destination SA range of an outgoing edge, from the branch at lines
    877-908 of the source: a reference gap at descent offset 0 inherits the
    parent range; a reference gap elsewhere reads the record one earlier
    indexed by its stored character; a mismatch or read gap reads the record
    at the edit's offset indexed by the edit's destination base. -/
def resolveEdgeRange (d : Descent) (pf : List DescentPos) (e : DescentEdge)
    (doff : Nat) : Nat × Nat × Nat × Nat :=
  let chr := asc2dna e.e.chr
  if e.e.isRefGap then
    if doff = 0 then (d.topf, d.botf, d.topb, d.botb)
    else
      let pos := aget pf (d.posid + doff - 1)
      let ch := pos.c.toNat
      (qidx pos.topf ch, qidx pos.botf ch, qidx pos.topb ch, qidx pos.botb ch)
  else
    let pos := aget pf (d.posid + doff)
    (qidx pos.topf chr, qidx pos.botf chr, qidx pos.topb chr, qidx pos.botb chr)

/-- The destination-range rule as the spec words it, for comparison with
    resolveEdgeRange: case split on the edit type, parent's range unchanged
    for a ref gap at depth 0, the one-earlier record at its stored character
    for a deeper ref gap, the record at the edit's depth at the edit's
    destination base for mismatches and read gaps. -/
def resolveEdgeRangeSpec (d : Descent) (pf : List DescentPos) (e : DescentEdge)
    (doff : Nat) : Nat × Nat × Nat × Nat :=
  match e.e.etype with
  | EditType.refGap =>
    match doff with
    | 0 => (d.topf, d.botf, d.topb, d.botb)
    | doff' + 1 =>
      let pos := aget pf (d.posid + doff')
      let ch := pos.c.toNat
      (qidx pos.topf ch, qidx pos.botf ch, qidx pos.topb ch, qidx pos.botb ch)
  | _ =>
    let pos := aget pf (d.posid + doff)
    let ch := asc2dna e.e.chr
    (qidx pos.topf ch, qidx pos.botf ch, qidx pos.topb ch, qidx pos.botb ch)

/-- Take the best outgoing edge of a popped descent: rotate it off the
    ranker, rerun recalcOutgoing once when the cache was incomplete and just
    emptied, compute the child extents and destination range, report to the
    sink when the edge completes the read, otherwise initialize the child
    (rolling back the arenas on failure), and finally re-insert the descent
    when outgoing edges remain. -/
def followBestOutgoing (q : DescentQuery) (sc : Scoring) (ebf ebb : Ebwt)
    (rs : List DescentRoot) (cs : List DescentConfig) (bfuel : Nat)
    (descid : Nat) (st : EngineSt) : EngineSt :=
  let d := aget st.df descid
  if d.out.isEmpty then st
  else
    let e := d.out.headD default
    let best := e.pri
    let d1 := { d with out := d.out.tail }
    let fw := (aget rs d.rid).fw
    let toward3p := d.l2r = fw
    let needRecalc := d1.out.isEmpty && !d1.lastRecalc
    let rstep :=
      if needRecalc then
        let r := recalcOutgoing q sc st.re st.pf rs cs d1
        (r.d, r.pf)
      else (d1, st.pf)
    let d2 := rstep.1
    let pf1 := rstep.2
    if needRecalc && d2.out.isEmpty then
      { st with df := aset st.df descid d2, pf := pf1 }
    else
      let ext := edgeExtents q toward3p e d
      let l2r1 := if !ext.done && ext.hitEnd then !d.l2r else d.l2r
      let dfBase := aset st.df descid d2
      let dfsz := dfBase.length
      let pfsz := pf1.length
      let id := dfsz
      let dfA := dfBase ++ [default]
      let quad := resolveEdgeRange d pf1 e ext.doff
      if ext.done then
        { st with
          df := dfA
          pf := pf1
          sink := reportAlignment st.sink
            { topf := quad.1, botf := quad.2.1, topb := quad.2.2.1,
              botb := quad.2.2.2, descid := d.descid, rid := d.rid,
              e := some e.e, pen := best.pen } }
      else
        let a : InitArgs :=
          { rid := d.rid, al5pi := ext.al5pi_new, al5pf := ext.al5pf_new,
            topf := quad.1, botf := quad.2.1, topb := quad.2.2.1,
            botb := quad.2.2.2, l2r := l2r1, descid := id, parent := d.descid,
            pen := best.pen, e := some e.e }
        let stI : EngineSt :=
          { re := st.re, df := dfA, pf := pf1, heap := st.heap, sink := st.sink }
        let p := initRollbackWith (initBranch q sc ebf ebb rs cs bfuel)
          dfsz pfsz a stI
        let st2 := p.2
        let dF := aget st2.df descid
        if !dF.out.isEmpty then
          { st2 with heap := heapInsert (dF.out.headD default).pri descid st2.heap }
        else st2

/-- One iteration of the driver's root-seeding loop: save the watermarks,
    allocate a descent, initialize it from root i, and roll both arenas back
    when the initialization yields nothing. -/
def seedRoot (q : DescentQuery) (sc : Scoring) (ebf ebb : Ebwt)
    (rs : List DescentRoot) (cs : List DescentConfig) (bfuel : Nat)
    (st : EngineSt) (i : Nat) : EngineSt :=
  let dfsz := st.df.length
  let pfsz := st.pf.length
  let id := dfsz
  (rootInitRollbackWith (initRoot q sc ebf ebb rs cs bfuel) dfsz pfsz i id
    { st with df := st.df ++ [default] }).2

def seedRoots (q : DescentQuery) (sc : Scoring) (ebf ebb : Ebwt)
    (rs : List DescentRoot) (cs : List DescentConfig) (bfuel : Nat)
    (st : EngineSt) : EngineSt :=
  (List.range rs.length).foldl (seedRoot q sc ebf ebb rs cs bfuel) st

/-- The driver's drain loop: pop the best (priority, descent) pair and follow
    that descent's best outgoing edge, until the heap empties.  The Nat fuel
    bounds the iteration count (the source relies on the finiteness of the
    cons budget for termination). -/
def goLoop (q : DescentQuery) (sc : Scoring) (ebf ebb : Ebwt)
    (rs : List DescentRoot) (cs : List DescentConfig) (bfuel : Nat) :
    Nat → EngineSt → EngineSt
  | 0, st => st
  | fuel + 1, st =>
    match heapPop st.heap with
    | none => st
    | some pr =>
      goLoop q sc ebf ebb rs cs bfuel fuel
        (followBestOutgoing q sc ebf ebb rs cs bfuel pr.1.2
          { st with heap := pr.2 })

/-- Drive the whole search from a fresh driver state: seed one descent per
    root, then drain the heap. -/
def go (q : DescentQuery) (sc : Scoring) (ebf ebb : Ebwt)
    (rs : List DescentRoot) (cs : List DescentConfig) (bfuel fuel : Nat) :
    EngineSt :=
  let st0 : EngineSt := { re := [], df := [], pf := [], heap := [], sink := [] }
  goLoop q sc ebf ebb rs cs bfuel fuel (seedRoots q sc ebf ebb rs cs bfuel st0)

/-! ## Auxiliary predicates used by the theorems -/

/-- Whether, at position record dIdx, all surviving SA-range width lies under
    the matching base c, read off the direction-of-descent arrays. -/
def allmatchAt (pf : List DescentPos) (dIdx : Nat) (l2r : Bool) (c : Nat) : Bool :=
  let pos := aget pf dIdx
  let t := if l2r then pos.topb else pos.topf
  let b := if l2r then pos.botb else pos.botf
  (b 0 - t 0) + (b 1 - t 1) + (b 2 - t 2) + (b 3 - t 3) = qidx b c - qidx t c

/-- The ranges and stored characters of two position arenas agree (only the
    exploration flags may differ). -/
def rangesEq (pf pf' : List DescentPos) : Prop :=
  ∀ i : Nat, (aget pf' i).c = (aget pf i).c ∧
    (aget pf' i).topf = (aget pf i).topf ∧
    (aget pf' i).botf = (aget pf i).botf ∧
    (aget pf' i).topb = (aget pf i).topb ∧
    (aget pf' i).botb = (aget pf i).botb

/-- What one iteration of the recalcOutgoing position loop guarantees about
    each candidate it emits. -/
def QIter (cx : IterCtx) (em : DescentEdge × EdgeTag) : Prop :=
  em.1.off5p = cx.off5p ∧ em.1.posFlag = cx.dIdx ∧ em.1.pri.depth = cx.depth ∧
  em.1.pri.pen ≤ cx.pen + cx.diff ∧
  ((em.2 = EdgeTag.rdgOpen ∨ em.2 = EdgeTag.rfgOpen) →
    cx.sc.gapbar ≤ cx.off5p ∧ cx.sc.gapbar ≤ cx.off3p ∧ allmatchOf cx = false)

/-- What recalcOutgoing guarantees about every candidate it offers. -/
def QFin (cons : Nat → TScore) (gapbar qlen : Nat) (pf0 : List DescentPos)
    (l2r : Bool) (q : DescentQuery) (fw : Bool)
    (em : DescentEdge × EdgeTag) : Prop :=
  em.1.pri.pen ≤ cons em.1.pri.depth ∧
  ((em.2 = EdgeTag.rdgOpen ∨ em.2 = EdgeTag.rfgOpen) →
    gapbar ≤ em.1.off5p ∧ gapbar + em.1.off5p + 1 ≤ qlen ∧
    allmatchAt pf0 em.1.posFlag l2r (q.getc em.1.off5p fw) = false)

/-! ## Concrete instances used by counterexamples and witnesses -/

/-- A length-4 query ACGT. -/
def cQ4 : DescentQuery :=
  { seq := [0, 1, 2, 3], qual := [10, 10, 10, 10],
    seqrc := [0, 1, 2, 3], qualrc := [10, 10, 10, 10] }

/-- A length-3 query AAA. -/
def cQ3 : DescentQuery :=
  { seq := [0, 0, 0], qual := [10, 10, 10],
    seqrc := [3, 3, 3], qualrc := [10, 10, 10] }

/-- A length-2 query AC. -/
def cQ2 : DescentQuery :=
  { seq := [0, 1], qual := [10, 10], seqrc := [2, 3], qualrc := [10, 10] }

def cRoots : List DescentRoot := [{ off5p := 0, l2r := true, fw := true, pri := 0 }]

def cCs9 : List DescentConfig := [{ cons := fun _ => 9 }]

def cCs3 : List DescentConfig := [{ cons := fun _ => 3 }]

def cCs0 : List DescentConfig := [{ cons := fun _ => 0 }]

/-- Scoring with mismatch cost 3, gap open 5, gap extend 3, gapbar 1. -/
def cScA : Scoring :=
  { mm := fun _ _ => 3, readGapOpen := 5, readGapExtend := 3,
    refGapOpen := 5, refGapExtend := 3, gapbar := 1 }

/-- Same scoring with gapbar 5 (larger than the read). -/
def cScC : Scoring :=
  { mm := fun _ _ => 3, readGapOpen := 5, readGapExtend := 3,
    refGapOpen := 5, refGapExtend := 3, gapbar := 5 }

/-- A position record where every base keeps width-1 mass. -/
def cPosAll : DescentPos :=
  { c := 0, topf := fun _ => 0, botf := fun _ => 1, topb := fun _ => 0,
    botb := fun _ => 1, flags := DescentPosFlags.reset }

def cPf4 : List DescentPos :=
  [cPosAll, { cPosAll with c := 1 }, { cPosAll with c := 2 },
   { cPosAll with c := 3 }]

/-- A root descent over cQ4 that matched positions 0..2 and owns the four
    records of cPf4 (the last one being the failed position). -/
def cdRec : Descent :=
  { rid := 0, al5pi := 0, al5pf := 2, l2r := true, topf := 0, botf := 1,
    topb := 0, botb := 1, descid := 0, parent := none, pen := 0, posid := 0,
    len := 3, out := [], edit := none, lastRecalc := true, gapadd := 0,
    off5p_i := 0 }

/-- An index whose single-character first step yields a width-2 range and
    whose bidirectional step keeps width 1 under every base with prime range
    [5,6); its mapLF1 always fails (returns -1). -/
def cEb2 : Ebwt :=
  { ftabChars := 1, fchr := fun c => if c = 0 then 10 else 12,
    ftabLoHi := fun _ _ _ => (0, 0),
    mapBiLFEx := fun _ _ _ _ =>
      (fun _ => 3, fun _ => 4, fun _ => 5, fun _ => 6),
    mapLF1 := fun r => (0, r) }

/-- The redundancy key reached after one successful extension step of cQ3
    from the root through cEb2. -/
def cKey2 : RKey :=
  { fw := true, al5pi := 0, al5pf := 1, rfsz := 2, topf := 5, botf := 6 }

def cRe2 : RedState := [(cKey2, 0)]

/-- The redundancy key of the root step itself through cEb2. -/
def cKey2R : RKey :=
  { fw := true, al5pi := 0, al5pf := 0, rfsz := 1, topf := 10, botf := 12 }

def cRe2R : RedState := [(cKey2R, 0)]

/-- A fresh root descent over cQ3. -/
def cdRoot3 : Descent :=
  { rid := 0, al5pi := 0, al5pf := 0, l2r := true, topf := 0, botf := 0,
    topb := 0, botb := 0, descid := 0, parent := none, pen := 0, posid := 0,
    len := 0, out := [], edit := none, lastRecalc := true, gapadd := 0,
    off5p_i := 0 }

/-- An index with ftab width 4 whose lookups return nonempty ranges. -/
def cEb5f : Ebwt :=
  { ftabChars := 4, fchr := fun _ => 0,
    ftabLoHi := fun _ _ _ => (20, 22),
    mapBiLFEx := fun _ _ _ _ => (fun _ => 0, fun _ => 0, fun _ => 0, fun _ => 0),
    mapLF1 := fun _ => (-1, 0) }

def cEb5b : Ebwt :=
  { ftabChars := 4, fchr := fun _ => 0,
    ftabLoHi := fun _ _ _ => (24, 26),
    mapBiLFEx := fun _ _ _ _ => (fun _ => 0, fun _ => 0, fun _ => 0, fun _ => 0),
    mapLF1 := fun _ => (-1, 0) }

/-- A fresh root descent over cQ4. -/
def cdRoot4 : Descent := cdRoot3

/-- An index whose every first-step range is empty. -/
def cEbEmpty : Ebwt :=
  { ftabChars := 1, fchr := fun _ => 7,
    ftabLoHi := fun _ _ _ => (0, 0),
    mapBiLFEx := fun _ _ _ _ => (fun _ => 0, fun _ => 0, fun _ => 0, fun _ => 0),
    mapLF1 := fun _ => (-1, 0) }

/-- Arguments of a failing branch init over cQ3: the child extends from
    offset 2, the LF step fails at once, and with the zero budget of cCs0 no
    outgoing edge is produced. -/
def cAArgs : InitArgs :=
  { rid := 0, al5pi := 0, al5pf := 1, topf := 0, botf := 1, topb := 0,
    botb := 1, l2r := true, descid := 1, parent := 0, pen := 0,
    e := some { pos := 1, chr := 67, qchr := 65, etype := EditType.mm } }

/-- The parent descent sitting in the arena for the failing branch init. -/
def cdP : Descent :=
  { rid := 0, al5pi := 0, al5pf := 1, l2r := true, topf := 0, botf := 1,
    topb := 0, botb := 1, descid := 0, parent := none, pen := 0, posid := 0,
    len := 2, out := [], edit := none, lastRecalc := true, gapadd := 0,
    off5p_i := 0 }

def cSt4 : EngineSt :=
  { re := [], df := [cdP, default], pf := [], heap := [], sink := [] }

def cSt4R : EngineSt :=
  { re := [], df := [default], pf := [], heap := [], sink := [] }

/-- An empty driver state (before the seeding loop allocates anything). -/
def cStE : EngineSt :=
  { re := [], df := [], pf := [], heap := [], sink := [] }

/-- A driver state holding only the parent descent, as seen by bounce before
    it allocates the child slot. -/
def cStB : EngineSt :=
  { re := [], df := [cdP], pf := [], heap := [], sink := [] }

/-- Position records for the followBestOutgoing done-path witness over cQ2:
    the record at offset 1 carries mass under base G (code 2). -/
def cPos10a : DescentPos :=
  { c := 0, topf := fun _ => 30, botf := fun _ => 31, topb := fun _ => 30,
    botb := fun _ => 31, flags := DescentPosFlags.reset }

def cPos10b : DescentPos :=
  { c := 1, topf := fun j => 40 + (j : Nat), botf := fun j => 41 + (j : Nat),
    topb := fun j => 50 + (j : Nat), botb := fun j => 51 + (j : Nat),
    flags := DescentPosFlags.reset }

/-- A mismatch edge at offset 1 of cQ2 whose destination base is G. -/
def cE10 : DescentEdge :=
  { e := { pos := 1, chr := 71, qchr := 67, etype := EditType.mm },
    off5p := 1,
    pri := { pen := 3, depth := 1, width := 1, rootpri := 0 },
    posFlag := 1 }

/-- A popped descent over cQ2 whose best outgoing edge completes the read. -/
def cd10 : Descent :=
  { rid := 0, al5pi := 0, al5pf := 0, l2r := true, topf := 30, botf := 31,
    topb := 30, botb := 31, descid := 0, parent := none, pen := 0, posid := 0,
    len := 2, out := [cE10], edit := none, lastRecalc := true, gapadd := 0,
    off5p_i := 0 }

def cSt10 : EngineSt :=
  { re := [], df := [cd10], pf := [cPos10a, cPos10b], heap := [], sink := [] }

/-- A state holding a popped descent for the C7 witness. -/
def cSt7 : EngineSt :=
  { re := [], df := [cdP], pf := [], heap := [], sink := [] }

/-! ## Emission lemmas for recalcOutgoing -/

theorem emit_trans {s t u : StageSt} {Q : DescentEdge × EdgeTag → Prop}
    (h1 : ∀ em ∈ t.emitted, em ∈ s.emitted ∨ Q em)
    (h2 : ∀ em ∈ u.emitted, em ∈ t.emitted ∨ Q em) :
    ∀ em ∈ u.emitted, em ∈ s.emitted ∨ Q em := by
  intro em hm
  rcases h2 em hm with h | h
  · exact h1 em h
  · exact Or.inr h

theorem foldl_emitted_inv {β : Type} (f : StageSt → β → StageSt)
    (Q : DescentEdge × EdgeTag → Prop)
    (hf : ∀ s x, ∀ em ∈ (f s x).emitted, em ∈ s.emitted ∨ Q em) :
    ∀ (l : List β) (s : StageSt), ∀ em ∈ (l.foldl f s).emitted,
      em ∈ s.emitted ∨ Q em := by
  intro l
  induction l with
  | nil => intro s em hm; exact Or.inl hm
  | cons x xs ih =>
    intro s em hm
    rcases ih (f s x) em hm with h | h
    · exact hf s x em h
    · exact Or.inr h

theorem applyIf_emit {b : Bool} {f : StageSt → StageSt} {s : StageSt}
    {Q : DescentEdge × EdgeTag → Prop}
    (hf : b = true → ∀ em ∈ (f s).emitted, em ∈ s.emitted ∨ Q em) :
    ∀ em ∈ (applyIf b f s).emitted, em ∈ s.emitted ∨ Q em := by
  unfold applyIf
  split
  · exact hf ‹_›
  · intro em hm; exact Or.inl hm

theorem mmStageJ_emit (cx : IterCtx) (s : StageSt) (j : Fin 4) :
    ∀ em ∈ (mmStageJ cx s j).emitted, em ∈ s.emitted ∨
      (em.2 = EdgeTag.mm ∧ em.1.off5p = cx.off5p ∧ em.1.posFlag = cx.dIdx ∧
       em.1.pri.pen = cx.pen + mmPenOf cx ∧ em.1.pri.depth = cx.depth) := by
  intro em hm
  simp only [mmStageJ] at hm
  repeat' split at hm
  all_goals
    first
    | exact Or.inl hm
    | (simp only [emitEdge, List.mem_append, List.mem_singleton] at hm
       rcases hm with hm | hm
       · exact Or.inl hm
       · subst hm; exact Or.inr ⟨rfl, rfl, rfl, rfl, rfl⟩)

theorem rdgStageJ_emit (cx : IterCtx) (cost : TScore) (withPos2 : Bool)
    (tag : EdgeTag) (s : StageSt) (j : Fin 4) :
    ∀ em ∈ (rdgStageJ cx cost withPos2 tag s j).emitted, em ∈ s.emitted ∨
      (em.2 = tag ∧ em.1.off5p = cx.off5p ∧ em.1.posFlag = cx.dIdx ∧
       em.1.pri.pen = cx.pen + cost ∧ em.1.pri.depth = cx.depth) := by
  intro em hm
  simp only [rdgStageJ] at hm
  repeat' split at hm
  all_goals
    first
    | exact Or.inl hm
    | (simp only [emitEdge, List.mem_append, List.mem_singleton] at hm
       rcases hm with hm | hm
       · exact Or.inl hm
       · subst hm; exact Or.inr ⟨rfl, rfl, rfl, rfl, rfl⟩)

theorem rfgStage_emit (cx : IterCtx) (cost : TScore) (tag : EdgeTag)
    (s : StageSt) :
    ∀ em ∈ (rfgStage cx cost tag s).emitted, em ∈ s.emitted ∨
      (em.2 = tag ∧ em.1.off5p = cx.off5p ∧ em.1.posFlag = cx.dIdx ∧
       em.1.pri.pen = cx.pen + cost ∧ em.1.pri.depth = cx.depth) := by
  intro em hm
  simp only [rfgStage] at hm
  repeat' split at hm
  all_goals
    first
    | exact Or.inl hm
    | (simp only [emitEdge, List.mem_append, List.mem_singleton] at hm
       rcases hm with hm | hm
       · exact Or.inl hm
       · subst hm; exact Or.inr ⟨rfl, rfl, rfl, rfl, rfl⟩)

theorem rdgStage_emit (cx : IterCtx) (cost : TScore) (withPos2 : Bool)
    (tag : EdgeTag) (s : StageSt) :
    ∀ em ∈ (rdgStage cx cost withPos2 tag s).emitted, em ∈ s.emitted ∨
      (em.2 = tag ∧ em.1.off5p = cx.off5p ∧ em.1.posFlag = cx.dIdx ∧
       em.1.pri.pen = cx.pen + cost ∧ em.1.pri.depth = cx.depth) := by
  unfold rdgStage
  exact foldl_emitted_inv _ _ (fun s' x => rdgStageJ_emit cx cost withPos2 tag s' x) _ s

theorem mmStage_emit (cx : IterCtx) (s : StageSt) :
    ∀ em ∈ (mmStage cx s).emitted, em ∈ s.emitted ∨
      (em.2 = EdgeTag.mm ∧ em.1.off5p = cx.off5p ∧ em.1.posFlag = cx.dIdx ∧
       em.1.pri.pen = cx.pen + mmPenOf cx ∧ em.1.pri.depth = cx.depth ∧
       mmPenOf cx ≤ cx.diff) := by
  unfold mmStage
  split
  · intro em hm
    rcases foldl_emitted_inv _ _ (fun s' x => mmStageJ_emit cx s' x) _ s em hm with h | h
    · exact Or.inl h
    · exact Or.inr ⟨h.1, h.2.1, h.2.2.1, h.2.2.2.1, h.2.2.2.2, ‹_›⟩
  · intro em hm; exact Or.inl hm

theorem mmStage_QIter (cx : IterCtx) (s : StageSt) :
    ∀ em ∈ (mmStage cx s).emitted, em ∈ s.emitted ∨ QIter cx em := by
  intro em hm
  rcases mmStage_emit cx s em hm with h | h
  · exact Or.inl h
  · refine Or.inr ⟨h.2.1, h.2.2.1, h.2.2.2.2.1, ?_, ?_⟩
    · rw [h.2.2.2.1]; exact add_le_add_left h.2.2.2.2.2 _
    · intro hopen
      rw [h.1] at hopen
      rcases hopen with h' | h' <;> exact absurd h' (by decide)

theorem rdgStage_QIter_nonopen (cx : IterCtx) (cost : TScore) (wp : Bool)
    (tag : EdgeTag) (s : StageSt) (hcost : cost ≤ cx.diff)
    (h1 : tag ≠ EdgeTag.rdgOpen) (h2 : tag ≠ EdgeTag.rfgOpen) :
    ∀ em ∈ (rdgStage cx cost wp tag s).emitted,
      em ∈ s.emitted ∨ QIter cx em := by
  intro em hm
  rcases rdgStage_emit cx cost wp tag s em hm with h | h
  · exact Or.inl h
  · refine Or.inr ⟨h.2.1, h.2.2.1, h.2.2.2.2, ?_, ?_⟩
    · rw [h.2.2.2.1]; exact add_le_add_left hcost _
    · intro hopen
      rw [h.1] at hopen
      rcases hopen with h' | h' <;> [exact absurd h' h1; exact absurd h' h2]

theorem rfgStage_QIter_nonopen (cx : IterCtx) (cost : TScore)
    (tag : EdgeTag) (s : StageSt) (hcost : cost ≤ cx.diff)
    (h1 : tag ≠ EdgeTag.rdgOpen) (h2 : tag ≠ EdgeTag.rfgOpen) :
    ∀ em ∈ (rfgStage cx cost tag s).emitted,
      em ∈ s.emitted ∨ QIter cx em := by
  intro em hm
  rcases rfgStage_emit cx cost tag s em hm with h | h
  · exact Or.inl h
  · refine Or.inr ⟨h.2.1, h.2.2.1, h.2.2.2.2, ?_, ?_⟩
    · rw [h.2.2.2.1]; exact add_le_add_left hcost _
    · intro hopen
      rw [h.1] at hopen
      rcases hopen with h' | h' <;> [exact absurd h' h1; exact absurd h' h2]

theorem rdgStage_QIter_open (cx : IterCtx) (cost : TScore) (wp : Bool)
    (tag : EdgeTag) (s : StageSt) (hcost : cost ≤ cx.diff)
    (hg5 : cx.sc.gapbar ≤ cx.off5p) (hg3 : cx.sc.gapbar ≤ cx.off3p)
    (ham : allmatchOf cx = false) :
    ∀ em ∈ (rdgStage cx cost wp tag s).emitted,
      em ∈ s.emitted ∨ QIter cx em := by
  intro em hm
  rcases rdgStage_emit cx cost wp tag s em hm with h | h
  · exact Or.inl h
  · refine Or.inr ⟨h.2.1, h.2.2.1, h.2.2.2.2, ?_, fun _ => ⟨hg5, hg3, ham⟩⟩
    rw [h.2.2.2.1]; exact add_le_add_left hcost _

theorem rfgStage_QIter_open (cx : IterCtx) (cost : TScore)
    (tag : EdgeTag) (s : StageSt) (hcost : cost ≤ cx.diff)
    (hg5 : cx.sc.gapbar ≤ cx.off5p) (hg3 : cx.sc.gapbar ≤ cx.off3p)
    (ham : allmatchOf cx = false) :
    ∀ em ∈ (rfgStage cx cost tag s).emitted,
      em ∈ s.emitted ∨ QIter cx em := by
  intro em hm
  rcases rfgStage_emit cx cost tag s em hm with h | h
  · exact Or.inl h
  · refine Or.inr ⟨h.2.1, h.2.2.1, h.2.2.2.2, ?_, fun _ => ⟨hg5, hg3, ham⟩⟩
    rw [h.2.2.2.1]; exact add_le_add_left hcost _

/-- Every candidate emitted by one iteration satisfies QIter. -/
theorem iterStages_emit (cx : IterCtx) (s : StageSt) :
    ∀ em ∈ (iterStages cx s).emitted, em ∈ s.emitted ∨ QIter cx em := by
  unfold iterStages
  split
  · refine emit_trans (emit_trans (emit_trans (emit_trans
      (mmStage_QIter cx s) (applyIf_emit ?h2)) (applyIf_emit ?h3))
      (applyIf_emit ?h4)) (applyIf_emit ?h5)
    case h2 =>
      intro hb
      simp only [Bool.and_eq_true, rdexOf, decide_eq_true_eq] at hb
      exact rdgStage_QIter_nonopen cx _ _ _ _ hb.2.1.2
        (by decide) (by decide)
    case h3 =>
      intro hb
      simp only [Bool.and_eq_true, rfexOf, decide_eq_true_eq] at hb
      exact rfgStage_QIter_nonopen cx _ _ _ hb.2.1.2
        (by decide) (by decide)
    case h4 =>
      intro hb
      simp only [Bool.and_eq_true, gapsAllowedOf, Bool.not_eq_true',
        decide_eq_true_eq] at hb
      obtain ⟨⟨hg5, hg3⟩, ⟨ham, hcost⟩, hx⟩ := hb
      exact rdgStage_QIter_open cx _ _ _ _ hcost hg5 hg3 ham
    case h5 =>
      intro hb
      simp only [Bool.and_eq_true, gapsAllowedOf, Bool.not_eq_true',
        decide_eq_true_eq] at hb
      obtain ⟨⟨hg5, hg3⟩, ⟨ham, hcost⟩, hx⟩ := hb
      exact rfgStage_QIter_open cx _ _ _ hcost hg5 hg3 ham
  · intro em hm; exact Or.inl hm

/-! ## Arena access lemmas -/

theorem aget_aset_ne {α : Type} [Inhabited α] (l : List α) (i j : Nat) (a : α)
    (h : i ≠ j) : aget (aset l i a) j = aget l j := by
  simp [aget, aset, List.getElem?_set_ne h]

theorem aget_aset_self {α : Type} [Inhabited α] (l : List α) (i : Nat) (a : α)
    (h : i < l.length) : aget (aset l i a) i = a := by
  simp [aget, aset, List.getElem?_set_eq_of_lt a h]

theorem aset_oob {α : Type} (l : List α) (i : Nat) (a : α)
    (h : l.length ≤ i) : aset l i a = l := by
  simp [aset, List.set_eq_of_length_le h]

theorem rangesEq_refl (pf : List DescentPos) : rangesEq pf pf :=
  fun _ => ⟨rfl, rfl, rfl, rfl, rfl⟩

theorem rangesEq_trans {a b c : List DescentPos} (h1 : rangesEq a b)
    (h2 : rangesEq b c) : rangesEq a c := by
  intro i
  obtain ⟨x1, x2, x3, x4, x5⟩ := h1 i
  obtain ⟨y1, y2, y3, y4, y5⟩ := h2 i
  exact ⟨y1.trans x1, y2.trans x2, y3.trans x3, y4.trans x4, y5.trans x5⟩

theorem rangesEq_aset_flags (pf : List DescentPos) (i : Nat)
    (f : DescentPosFlags) :
    rangesEq pf (aset pf i { aget pf i with flags := f }) := by
  intro k
  by_cases hk : i = k
  · subst hk
    by_cases hl : i < pf.length
    · rw [aget_aset_self _ _ _ hl]
      exact ⟨rfl, rfl, rfl, rfl, rfl⟩
    · rw [aset_oob _ _ _ (Nat.le_of_not_lt hl)]
      exact ⟨rfl, rfl, rfl, rfl, rfl⟩
  · rw [aget_aset_ne _ _ _ _ hk]
    exact ⟨rfl, rfl, rfl, rfl, rfl⟩

theorem allmatchAt_rangesEq {pf0 pf : List DescentPos} (h : rangesEq pf0 pf)
    (i : Nat) (l2r : Bool) (c : Nat) :
    allmatchAt pf i l2r c = allmatchAt pf0 i l2r c := by
  simp only [allmatchAt]
  obtain ⟨_, h1, h2, h3, h4⟩ := h i
  rw [h1, h2, h3, h4]

theorem allmatchOf_mk (rc : RecalcCtx) (st : RecalcSt) :
    allmatchOf (mkIterCtx rc st) =
      allmatchAt st.pf st.dIdx rc.l2r (rc.q.getc st.off5p rc.fw) := rfl

/-! ## Loop invariants of recalcOutgoing -/

/-- The invariant carried along the position walk: the cursor stays inside
    the read with off3p the exact complement, the arena ranges never change,
    and every candidate emitted so far satisfies the budget bound and, for
    gap opens, the gapbar and not-allmatch conditions. -/
def RInv (rc : RecalcCtx) (pf0 : List DescentPos) (st : RecalcSt) : Prop :=
  st.off5p < rc.q.length ∧ st.off3p = rc.q.length - st.off5p - 1 ∧
  rangesEq pf0 st.pf ∧
  ∀ em ∈ st.emitted,
    em.1.pri.pen ≤ rc.cons em.1.pri.depth ∧
    ((em.2 = EdgeTag.rdgOpen ∨ em.2 = EdgeTag.rfgOpen) →
      rc.sc.gapbar ≤ em.1.off5p ∧
      rc.sc.gapbar ≤ rc.q.length - em.1.off5p - 1 ∧
      allmatchAt pf0 em.1.posFlag rc.l2r (rc.q.getc em.1.off5p rc.fw) = false)

theorem QIter_pen (rc : RecalcCtx) (st : RecalcSt) (em : DescentEdge × EdgeTag)
    (hq : QIter (mkIterCtx rc st) em) :
    em.1.pri.pen ≤ rc.cons em.1.pri.depth := by
  obtain ⟨ho, hp, hd, hpen, himp⟩ := hq
  have hd' : em.1.pri.depth = st.depth := hd
  have hpen' : em.1.pri.pen ≤ rc.pen + (rc.cons st.depth - rc.pen) := hpen
  have he : rc.pen + (rc.cons st.depth - rc.pen) = rc.cons st.depth := by ring
  rw [he] at hpen'
  rw [hd']
  exact hpen'

theorem QIter_fact (rc : RecalcCtx) (pf0 : List DescentPos) (st : RecalcSt)
    (hr : rangesEq pf0 st.pf) (h3 : st.off3p = rc.q.length - st.off5p - 1)
    (em : DescentEdge × EdgeTag) (hq : QIter (mkIterCtx rc st) em) :
    em.1.pri.pen ≤ rc.cons em.1.pri.depth ∧
    ((em.2 = EdgeTag.rdgOpen ∨ em.2 = EdgeTag.rfgOpen) →
      rc.sc.gapbar ≤ em.1.off5p ∧
      rc.sc.gapbar ≤ rc.q.length - em.1.off5p - 1 ∧
      allmatchAt pf0 em.1.posFlag rc.l2r (rc.q.getc em.1.off5p rc.fw) = false) := by
  refine ⟨QIter_pen rc st em hq, ?_⟩
  obtain ⟨ho, hp, hd, hpen, himp⟩ := hq
  intro hop
  obtain ⟨hg5, hg3, ham⟩ := himp hop
  have ho' : em.1.off5p = st.off5p := ho
  have hp' : em.1.posFlag = st.dIdx := hp
  have hg5' : rc.sc.gapbar ≤ st.off5p := hg5
  have hg3' : rc.sc.gapbar ≤ st.off3p := hg3
  have ham' : allmatchAt st.pf st.dIdx rc.l2r (rc.q.getc st.off5p rc.fw) = false := by
    rw [← allmatchOf_mk]; exact ham
  refine ⟨?_, ?_, ?_⟩
  · rw [ho']; exact hg5'
  · rw [ho']; rw [h3] at hg3'; exact hg3'
  · rw [ho', hp', ← allmatchAt_rangesEq hr]; exact ham'

theorem recalcIter_keep (rc : RecalcCtx) (st : RecalcSt) :
    ∃ st1 : RecalcSt,
      (recalcIter rc st).1.emitted = st1.emitted ∧
      (recalcIter rc st).1.pf = st1.pf ∧
      st1.emitted = (iterStages (mkIterCtx rc st)
        { flags := (aget st.pf st.dIdx).flags, out := st.out,
          emitted := st.emitted, nout := st.nout }).emitted ∧
      st1.pf = aset st.pf st.dIdx
        { aget st.pf st.dIdx with
          flags := (iterStages (mkIterCtx rc st)
            { flags := (aget st.pf st.dIdx).flags, out := st.out,
              emitted := st.emitted, nout := st.nout }).flags } := by
  refine ⟨(recalcIter rc st).1, rfl, rfl, ?_, ?_⟩ <;>
    (unfold recalcIter; repeat' split) <;> rfl

theorem recalcIter_emit (rc : RecalcCtx) (st : RecalcSt) :
    ∀ em ∈ (recalcIter rc st).1.emitted,
      em ∈ st.emitted ∨ QIter (mkIterCtx rc st) em := by
  obtain ⟨st1, he, hp, he2, hp2⟩ := recalcIter_keep rc st
  intro em hm
  rw [he, he2] at hm
  exact iterStages_emit _ _ em hm

theorem recalcIter_pf (rc : RecalcCtx) (st : RecalcSt) :
    rangesEq st.pf (recalcIter rc st).1.pf := by
  obtain ⟨st1, he, hp, he2, hp2⟩ := recalcIter_keep rc st
  rw [hp, hp2]
  exact rangesEq_aset_flags st.pf st.dIdx _

theorem recalcIter_inv (rc : RecalcCtx) (pf0 : List DescentPos)
    (st : RecalcSt) (h : RInv rc pf0 st) : RInv rc pf0 (recalcIter rc st).1 := by
  obtain ⟨h5, h3, hr, hemit⟩ := h
  have hemit' : ∀ em ∈ (recalcIter rc st).1.emitted,
      em.1.pri.pen ≤ rc.cons em.1.pri.depth ∧
      ((em.2 = EdgeTag.rdgOpen ∨ em.2 = EdgeTag.rfgOpen) →
        rc.sc.gapbar ≤ em.1.off5p ∧
        rc.sc.gapbar ≤ rc.q.length - em.1.off5p - 1 ∧
        allmatchAt pf0 em.1.posFlag rc.l2r (rc.q.getc em.1.off5p rc.fw) = false) := by
    intro em hm
    rcases recalcIter_emit rc st em hm with hin | hq
    · exact hemit em hin
    · exact QIter_fact rc pf0 st hr h3 em hq
  have hrr : rangesEq pf0 (recalcIter rc st).1.pf :=
    rangesEq_trans hr (recalcIter_pf rc st)
  have hoff : ((recalcIter rc st).1.off5p = st.off5p ∧
        (recalcIter rc st).1.off3p = st.off3p) ∨
      (st.off3p ≠ 0 ∧ (recalcIter rc st).1.off5p = st.off5p + 1 ∧
        (recalcIter rc st).1.off3p = st.off3p - 1) ∨
      (st.off5p ≠ 0 ∧ (recalcIter rc st).1.off5p = st.off5p - 1 ∧
        (recalcIter rc st).1.off3p = st.off3p + 1) := by
    simp only [recalcIter]
    split
    · split
      · exact Or.inl ⟨rfl, rfl⟩
      · next hco => exact Or.inr (Or.inl ⟨hco, rfl, rfl⟩)
    · split
      · exact Or.inl ⟨rfl, rfl⟩
      · next hco => exact Or.inr (Or.inr ⟨hco, rfl, rfl⟩)
  refine ⟨?_, ?_, hrr, hemit'⟩ <;>
    (rcases hoff with ⟨e1, e2⟩ | ⟨hco, e1, e2⟩ | ⟨hco, e1, e2⟩ <;> rw [e1] <;>
      try rw [e2]) <;> omega

theorem recalcLoop_inv (rc : RecalcCtx) (pf0 : List DescentPos) :
    ∀ (fuel : Nat) (st : RecalcSt), RInv rc pf0 st →
      RInv rc pf0 (recalcLoop rc fuel st) := by
  intro fuel
  induction fuel with
  | zero => intro st h; exact h
  | succ n ih =>
    intro st h
    simp only [recalcLoop]
    split
    · split
      · exact recalcIter_inv rc pf0 st h
      · exact ih _ (recalcIter_inv rc pf0 st h)
    · exact h

theorem recalcLoop_pen (rc : RecalcCtx) :
    ∀ (fuel : Nat) (st : RecalcSt),
      (∀ em ∈ st.emitted, em.1.pri.pen ≤ rc.cons em.1.pri.depth) →
      ∀ em ∈ (recalcLoop rc fuel st).emitted,
        em.1.pri.pen ≤ rc.cons em.1.pri.depth := by
  intro fuel
  induction fuel with
  | zero => intro st h; exact h
  | succ n ih =>
    intro st h
    have h1 : ∀ em ∈ (recalcIter rc st).1.emitted,
        em.1.pri.pen ≤ rc.cons em.1.pri.depth := by
      intro em hm
      rcases recalcIter_emit rc st em hm with hin | hq
      · exact h em hin
      · exact QIter_pen rc st em hq
    simp only [recalcLoop]
    split
    · split
      · exact h1
      · exact ih _ h1
    · exact h

/-! ## Arena preservation lemmas -/

theorem take_aset {α : Type} (l : List α) (i n : Nat) (a : α) (h : n ≤ i) :
    (aset l i a).take n = l.take n := by
  induction l generalizing i n with
  | nil => rfl
  | cons x xs ih =>
    cases i with
    | zero =>
      have : n = 0 := Nat.le_zero.mp h
      subst this; rfl
    | succ i' =>
      cases n with
      | zero => rfl
      | succ n' =>
        simp only [aset, List.set, List.take]
        rw [show (List.set xs i' a) = aset xs i' a from rfl,
          ih i' n' (Nat.le_of_succ_le_succ h)]

theorem rankInsert_mem (e x : DescentEdge) (l : List DescentEdge)
    (h : x ∈ rankInsert e l) : x ∈ l ∨ x = e := by
  induction l with
  | nil =>
    simp only [rankInsert, List.mem_singleton] at h
    exact Or.inr h
  | cons y ys ih =>
    simp only [rankInsert] at h
    split at h
    · rcases List.mem_cons.mp h with h1 | h1
      · exact Or.inr h1
      · exact Or.inl h1
    · rcases List.mem_cons.mp h with h1 | h1
      · exact Or.inl (h1 ▸ List.mem_cons_self y ys)
      · rcases ih h1 with h2 | h2
        · exact Or.inl (List.mem_cons_of_mem y h2)
        · exact Or.inr h2

theorem rankUpdate_mem (out : List DescentEdge) (e x : DescentEdge)
    (h : x ∈ rankUpdate out e) : x ∈ out ∨ x = e := by
  unfold rankUpdate at h
  have h' : x ∈ rankInsert e out := List.mem_of_mem_take h
  rcases rankInsert_mem e x out h' with h2 | h2
  · exact Or.inl h2
  · exact Or.inr h2

theorem out_trans {s t u : StageSt} {Q : DescentEdge → Prop}
    (h1 : ∀ e ∈ t.out, e ∈ s.out ∨ Q e)
    (h2 : ∀ e ∈ u.out, e ∈ t.out ∨ Q e) :
    ∀ e ∈ u.out, e ∈ s.out ∨ Q e := by
  intro e hm
  rcases h2 e hm with h | h
  · exact h1 e h
  · exact Or.inr h

theorem foldl_out_inv {β : Type} (f : StageSt → β → StageSt)
    (Q : DescentEdge → Prop)
    (hf : ∀ s x, ∀ e ∈ (f s x).out, e ∈ s.out ∨ Q e) :
    ∀ (l : List β) (s : StageSt), ∀ e ∈ (l.foldl f s).out,
      e ∈ s.out ∨ Q e := by
  intro l
  induction l with
  | nil => intro s e hm; exact Or.inl hm
  | cons x xs ih =>
    intro s e hm
    rcases ih (f s x) e hm with h | h
    · exact hf s x e h
    · exact Or.inr h

theorem applyIf_out {b : Bool} {f : StageSt → StageSt} {s : StageSt}
    {Q : DescentEdge → Prop}
    (hf : b = true → ∀ e ∈ (f s).out, e ∈ s.out ∨ Q e) :
    ∀ e ∈ (applyIf b f s).out, e ∈ s.out ∨ Q e := by
  unfold applyIf
  split
  · exact hf ‹_›
  · intro e hm; exact Or.inl hm

theorem mmStageJ_out (cx : IterCtx) (s : StageSt) (j : Fin 4) :
    ∀ x ∈ (mmStageJ cx s j).out, x ∈ s.out ∨ x.posFlag = cx.dIdx := by
  intro x hm
  simp only [mmStageJ] at hm
  repeat' split at hm
  all_goals
    first
    | exact Or.inl hm
    | (rcases rankUpdate_mem _ _ _ hm with h | h
       · exact Or.inl h
       · subst h; exact Or.inr rfl)

theorem rdgStageJ_out (cx : IterCtx) (cost : TScore) (withPos2 : Bool)
    (tag : EdgeTag) (s : StageSt) (j : Fin 4) :
    ∀ x ∈ (rdgStageJ cx cost withPos2 tag s j).out,
      x ∈ s.out ∨ x.posFlag = cx.dIdx := by
  intro x hm
  simp only [rdgStageJ] at hm
  repeat' split at hm
  all_goals
    first
    | exact Or.inl hm
    | (rcases rankUpdate_mem _ _ _ hm with h | h
       · exact Or.inl h
       · subst h; exact Or.inr rfl)

theorem rfgStage_out (cx : IterCtx) (cost : TScore) (tag : EdgeTag)
    (s : StageSt) :
    ∀ x ∈ (rfgStage cx cost tag s).out, x ∈ s.out ∨ x.posFlag = cx.dIdx := by
  intro x hm
  simp only [rfgStage] at hm
  repeat' split at hm
  all_goals
    first
    | exact Or.inl hm
    | (rcases rankUpdate_mem _ _ _ hm with h | h
       · exact Or.inl h
       · subst h; exact Or.inr rfl)

theorem iterStages_out (cx : IterCtx) (s : StageSt) :
    ∀ x ∈ (iterStages cx s).out, x ∈ s.out ∨ x.posFlag = cx.dIdx := by
  unfold iterStages
  split
  · refine out_trans (out_trans (out_trans (out_trans
      (?_ : ∀ x ∈ (mmStage cx s).out, x ∈ s.out ∨ x.posFlag = cx.dIdx)
      (applyIf_out ?h2)) (applyIf_out ?h3)) (applyIf_out ?h4))
      (applyIf_out ?h5)
    · unfold mmStage
      split
      · exact foldl_out_inv _ _ (fun s' x => mmStageJ_out cx s' x) _ s
      · intro x hm; exact Or.inl hm
    case h2 =>
      intro _
      exact foldl_out_inv _ _ (fun s' x => rdgStageJ_out cx _ _ _ s' x) _ _
    case h3 => intro _; exact rfgStage_out cx _ _ _
    case h4 =>
      intro _
      exact foldl_out_inv _ _ (fun s' x => rdgStageJ_out cx _ _ _ s' x) _ _
    case h5 => intro _; exact rfgStage_out cx _ _ _
  · intro x hm; exact Or.inl hm

theorem recalcIter_out (rc : RecalcCtx) (st : RecalcSt) :
    (recalcIter rc st).1.out = (iterStages (mkIterCtx rc st)
      { flags := (aget st.pf st.dIdx).flags, out := st.out,
        emitted := st.emitted, nout := st.nout }).out ∧
    (recalcIter rc st).1.dIdx = st.dIdx + 1 := by
  constructor <;> (simp only [recalcIter]; repeat' split) <;> rfl

/-- The frame invariant of the recalcOutgoing walk: the arena length is
    fixed, the prefix below m is untouched, the cursor stays at or above m,
    and every ranked edge points at or above m. -/
def RPres (m : Nat) (pf0 : List DescentPos) (st : RecalcSt) : Prop :=
  st.pf.length = pf0.length ∧ st.pf.take m = pf0.take m ∧ m ≤ st.dIdx ∧
  ∀ e ∈ st.out, m ≤ e.posFlag

theorem recalcIter_pres (rc : RecalcCtx) (m : Nat) (pf0 : List DescentPos)
    (st : RecalcSt) (h : RPres m pf0 st) : RPres m pf0 (recalcIter rc st).1 := by
  obtain ⟨hl, ht, hd, ho⟩ := h
  obtain ⟨st1, he, hp, he2, hp2⟩ := recalcIter_keep rc st
  obtain ⟨hout, hdi⟩ := recalcIter_out rc st
  refine ⟨?_, ?_, ?_, ?_⟩
  · rw [hp, hp2, aset, List.length_set, hl]
  · rw [hp, hp2, take_aset _ _ _ _ hd, ht]
  · rw [hdi]; omega
  · intro e hm
    rw [hout] at hm
    rcases iterStages_out _ _ e hm with h1 | h1
    · exact ho e h1
    · rw [h1]; exact hd

theorem recalcLoop_pres (rc : RecalcCtx) (m : Nat) (pf0 : List DescentPos) :
    ∀ (fuel : Nat) (st : RecalcSt), RPres m pf0 st →
      RPres m pf0 (recalcLoop rc fuel st) := by
  intro fuel
  induction fuel with
  | zero => intro st h; exact h
  | succ n ih =>
    intro st h
    simp only [recalcLoop]
    split
    · split
      · exact recalcIter_pres rc m pf0 st h
      · exact ih _ (recalcIter_pres rc m pf0 st h)
    · exact h

theorem updateFlags_fold_pres (m : Nat) :
    ∀ (l : List DescentEdge) (pf : List DescentPos),
      (∀ e ∈ l, m ≤ e.posFlag) →
      (l.foldl edgeUpdateFlags pf).length = pf.length ∧
      (l.foldl edgeUpdateFlags pf).take m = pf.take m := by
  intro l
  induction l with
  | nil => intro pf _; exact ⟨rfl, rfl⟩
  | cons e es ih =>
    intro pf hl
    have h1 : (edgeUpdateFlags pf e).length = pf.length := by
      unfold edgeUpdateFlags
      simp only [aset, List.length_set]
    have h2 : (edgeUpdateFlags pf e).take m = pf.take m := by
      unfold edgeUpdateFlags
      exact take_aset _ _ _ _ (hl e (List.mem_cons_self e es))
    have hrest := ih (edgeUpdateFlags pf e)
      (fun x hx => hl x (List.mem_cons_of_mem e hx))
    simp only [List.foldl_cons]
    exact ⟨hrest.1.trans h1, hrest.2.trans h2⟩

/-- Helper: recalcOutgoing never changes the arena length nor any record
    below the descent's own first position. -/
theorem recalcOutgoing_pres (q : DescentQuery) (sc : Scoring) (re : RedState)
    (pf : List DescentPos) (rs : List DescentRoot) (cs : List DescentConfig)
    (d : Descent) (m : Nat) (hm : m ≤ d.posid) :
    (recalcOutgoing q sc re pf rs cs d).pf.length = pf.length ∧
    (recalcOutgoing q sc re pf rs cs d).pf.take m = pf.take m := by
  simp only [recalcOutgoing]
  have h0 := recalcLoop_pres
    { q := q, sc := sc, re := re, cons := (aget cs d.rid).cons,
      fw := (aget rs d.rid).fw, l2r := d.l2r,
      toward3p := d.l2r = (aget rs d.rid).fw,
      rootpri := (aget rs d.rid).pri, pen := d.pen, gapadd := d.gapadd,
      edit := d.edit, off5p_i := d.off5p_i, al5pi := d.al5pi,
      al5pf := d.al5pf,
      extrai := if d.l2r = (aget rs d.rid).fw then 0
        else if 0 < d.al5pi then 1 else 0,
      extraf := if d.l2r = (aget rs d.rid).fw then
        (if d.al5pf < q.length - 1 then 1 else 0) else 0 }
    m pf (q.length + 2) _
    (⟨rfl, rfl, hm, by intro e he; simp at he⟩ : RPres m pf
      { dIdx := d.posid,
        depth := if d.l2r = (aget rs d.rid).fw then d.off5p_i - d.al5pi
          else d.al5pf - d.off5p_i,
        off5p := d.off5p_i, off3p := q.length - d.off5p_i - 1,
        cur5pi := if d.l2r = (aget rs d.rid).fw then d.al5pi else d.off5p_i,
        cur5pf := if d.l2r = (aget rs d.rid).fw then d.off5p_i else d.al5pf,
        top := if d.l2r then d.topb else d.topf,
        bot := if d.l2r then d.botb else d.botf,
        topp := if d.l2r then d.topf else d.topb,
        botp := if d.l2r then d.botf else d.botb,
        pf := pf, out := [], emitted := [], nout := 0 })
  obtain ⟨hl, ht, _, ho⟩ := h0
  refine ⟨?_, ?_⟩
  · exact ((updateFlags_fold_pres m _ _ ho).1).trans hl
  · exact ((updateFlags_fold_pres m _ _ ho).2).trans ht

theorem fmIter_pf (q : DescentQuery) (ebf ebb : Ebwt) (fw t3 l2r : Bool)
    (st : FMLoopSt) :
    ∃ v, (fmIter q ebf ebb fw t3 l2r st).pf =
      aset (st.pf ++ [DescentPos.reset])
        ((if st.firstPos then st.pf.length else st.d.posid) + st.d.len) v :=
  ⟨_, rfl⟩

theorem fmIter_first (q : DescentQuery) (ebf ebb : Ebwt) (fw t3 l2r : Bool)
    (st : FMLoopSt) : (fmIter q ebf ebb fw t3 l2r st).firstPos = false := rfl

theorem fmIter_posid (q : DescentQuery) (ebf ebb : Ebwt) (fw t3 l2r : Bool)
    (st : FMLoopSt) :
    (fmIter q ebf ebb fw t3 l2r st).d.posid =
      if st.firstPos then st.pf.length else st.d.posid := by
  simp only [fmIter]
  repeat' split
  all_goals rfl

theorem fmIter_pflen (q : DescentQuery) (ebf ebb : Ebwt) (fw t3 l2r : Bool)
    (st : FMLoopSt) :
    (fmIter q ebf ebb fw t3 l2r st).pf.length = st.pf.length + 1 := by
  obtain ⟨v, h⟩ := fmIter_pf q ebf ebb fw t3 l2r st
  rw [h, aset, List.length_set, List.length_append]
  rfl

/-- The frame invariant of the followMatches step loop: the prefix below m
    is untouched and, once the first record was claimed, the descent's
    posid lies at or above m. -/
def FMPres (m : Nat) (pf0 : List DescentPos) (st : FMLoopSt) : Prop :=
  m ≤ st.pf.length ∧ st.pf.take m = pf0.take m ∧
  (st.firstPos = true ∨ m ≤ st.d.posid)

theorem fmIter_pres (q : DescentQuery) (ebf ebb : Ebwt) (fw t3 l2r : Bool)
    (m : Nat) (pf0 : List DescentPos) (st : FMLoopSt)
    (h : FMPres m pf0 st) : FMPres m pf0 (fmIter q ebf ebb fw t3 l2r st) := by
  obtain ⟨hl, ht, hp⟩ := h
  have hidx : m ≤ if st.firstPos then st.pf.length else st.d.posid := by
    cases hst : st.firstPos
    · rcases hp with h1 | h1
      · rw [hst] at h1; exact absurd h1 (by simp)
      · simpa using h1
    · simpa using hl
  obtain ⟨v, hpf⟩ := fmIter_pf q ebf ebb fw t3 l2r st
  refine ⟨?_, ?_, ?_⟩
  · rw [fmIter_pflen]; omega
  · rw [hpf, take_aset _ _ _ _ (le_trans hidx (Nat.le_add_right _ _)),
      List.take_append_of_le_length hl, ht]
  · right; rw [fmIter_posid]; exact hidx

theorem fmLoop_pres (q : DescentQuery) (ebf ebb : Ebwt) (fw t3 l2r : Bool)
    (m : Nat) (pf0 : List DescentPos) :
    ∀ (fuel : Nat) (st : FMLoopSt), FMPres m pf0 st →
      FMPres m pf0 (fmLoop q ebf ebb fw t3 l2r fuel st) := by
  intro fuel
  induction fuel with
  | zero => intro st h; exact h
  | succ n ih =>
    intro st h
    simp only [fmLoop]
    split
    · exact h
    · exact ih _ (fmIter_pres q ebf ebb fw t3 l2r m pf0 st h)

theorem fmLoop_first_false (q : DescentQuery) (ebf ebb : Ebwt)
    (fw t3 l2r : Bool) :
    ∀ (fuel : Nat) (st : FMLoopSt), st.firstPos = false →
      (fmLoop q ebf ebb fw t3 l2r fuel st).firstPos = false := by
  intro fuel
  induction fuel with
  | zero => intro st h; exact h
  | succ n ih =>
    intro st h
    simp only [fmLoop]
    split
    · exact h
    · exact ih _ (fmIter_first q ebf ebb fw t3 l2r st)

theorem fmLoop_posid_const (q : DescentQuery) (ebf ebb : Ebwt)
    (fw t3 l2r : Bool) :
    ∀ (fuel : Nat) (st : FMLoopSt), st.firstPos = false →
      (fmLoop q ebf ebb fw t3 l2r fuel st).d.posid = st.d.posid := by
  intro fuel
  induction fuel with
  | zero => intro st _; rfl
  | succ n ih =>
    intro st h
    simp only [fmLoop]
    split
    · rfl
    · rw [ih _ (fmIter_first q ebf ebb fw t3 l2r st), fmIter_posid, h]
      simp

theorem fmLoop_unfold (q : DescentQuery) (ebf ebb : Ebwt) (fw t3 l2r : Bool)
    (n : Nat) (st : FMLoopSt) (h1 : st.fail = false) (h2 : st.hitEnd = false) :
    fmLoop q ebf ebb fw t3 l2r (n + 1) st =
      fmLoop q ebf ebb fw t3 l2r n (fmIter q ebf ebb fw t3 l2r st) := by
  simp [fmLoop, h1, h2]

theorem fmRoot_char (q : DescentQuery) (ebf ebb : Ebwt)
    (fw t3 l2r : Bool) (d0 : Descent) (re : RedState) (pf : List DescentPos)
    (o5 o3 : Nat) :
    fmRootCharP pf (fmRoot q ebf ebb fw t3 l2r d0 re pf o5 o3) := by
  simp only [fmRoot]
  repeat' split
  all_goals first
    | exact Or.inl ⟨rfl, rfl, rfl⟩
    | exact Or.inr ⟨rfl, rfl, ebf.ftabChars, _, rfl⟩
    | exact Or.inr ⟨rfl, rfl, 1, _, rfl⟩

theorem fmRoot_props (q : DescentQuery) (ebf ebb : Ebwt)
    (fw t3 l2r : Bool) (d0 : Descent) (re : RedState) (pf : List DescentPos)
    (o5 o3 : Nat) (m : Nat) (hm : m ≤ pf.length) :
    m ≤ (fmRoot q ebf ebb fw t3 l2r d0 re pf o5 o3).pf.length ∧
    (fmRoot q ebf ebb fw t3 l2r d0 re pf o5 o3).pf.take m = pf.take m ∧
    ((fmRoot q ebf ebb fw t3 l2r d0 re pf o5 o3).firstPos = true ∨
      m ≤ (fmRoot q ebf ebb fw t3 l2r d0 re pf o5 o3).d.posid) ∧
    ((fmRoot q ebf ebb fw t3 l2r d0 re pf o5 o3).ok = true →
      pf.length ≤ (fmRoot q ebf ebb fw t3 l2r d0 re pf o5 o3).d.posid ∧
      (fmRoot q ebf ebb fw t3 l2r d0 re pf o5 o3).firstPos = false) := by
  have h := fmRoot_char q ebf ebb fw t3 l2r d0 re pf o5 o3
  unfold fmRootCharP at h
  rcases h with ⟨hok, hfp, hpf⟩ | ⟨hpos, hfp, n, v, hpf⟩
  · refine ⟨?_, ?_, ?_, ?_⟩
    · rw [hpf]; exact hm
    · rw [hpf]
    · exact Or.inl hfp
    · intro hcon; rw [hok] at hcon; cases hcon
  · refine ⟨?_, ?_, ?_, ?_⟩
    · rw [hpf]
      simp only [aset, List.length_set, List.length_append, List.length_replicate]
      omega
    · rw [hpf, take_aset _ _ _ _ (le_trans hm (Nat.le_add_right _ _)),
        List.take_append_of_le_length hm]
    · exact Or.inr (by rw [hpos]; exact hm)
    · intro _
      exact ⟨by rw [hpos], hfp⟩

theorem fmLoop_posid_two (q : DescentQuery) (ebf ebb : Ebwt) (fw t3 l2r : Bool)
    (n : Nat) (st : FMLoopSt) (h1 : st.fail = false) (h2 : st.hitEnd = false)
    (h3 : st.firstPos = true) :
    (fmLoop q ebf ebb fw t3 l2r (n + 2) st).d.posid = st.pf.length := by
  have he : n + 2 = (n + 1) + 1 := rfl
  rw [he, fmLoop_unfold q ebf ebb fw t3 l2r (n + 1) st h1 h2,
    fmLoop_posid_const q ebf ebb fw t3 l2r (n + 1) _
      (fmIter_first q ebf ebb fw t3 l2r st),
    fmIter_posid, h3]
  simp

theorem fmFinish_pres (q : DescentQuery) (ebf ebb : Ebwt) (fw t3 l2r : Bool)
    (sink : Sink) (mid : FMMid) (m : Nat) (pf0 : List DescentPos)
    (h : m ≤ mid.pf.length ∧ mid.pf.take m = pf0.take m ∧
      (mid.firstPos = true ∨ m ≤ mid.d.posid)) :
    m ≤ (fmFinish q ebf ebb fw t3 l2r sink mid).pf.length ∧
    (fmFinish q ebf ebb fw t3 l2r sink mid).pf.take m = pf0.take m := by
  obtain ⟨h1, h2, h3⟩ := h
  simp only [fmFinish]
  repeat' split
  all_goals first
    | exact ⟨h1, h2⟩
    | exact ⟨(fmLoop_pres q ebf ebb fw t3 l2r m pf0 _ _ ⟨h1, h2, h3⟩).1,
        (fmLoop_pres q ebf ebb fw t3 l2r m pf0 _ _ ⟨h1, h2, h3⟩).2.1⟩

theorem fmFinish_posid (q : DescentQuery) (ebf ebb : Ebwt) (fw t3 l2r : Bool)
    (sink : Sink) (mid : FMMid) (m : Nat)
    (hok : mid.ok = true →
      (mid.firstPos = true ∧ mid.done = false ∧ mid.hitEnd = false ∧
        m ≤ mid.pf.length) ∨
      (mid.firstPos = false ∧ m ≤ mid.d.posid)) :
    (fmFinish q ebf ebb fw t3 l2r sink mid).succ = true →
      m ≤ (fmFinish q ebf ebb fw t3 l2r sink mid).d.posid := by
  simp only [fmFinish]
  split
  · intro hc; simp at hc
  next hnot =>
    have hok2 : mid.ok = true := by simpa using hnot
    rcases hok hok2 with ⟨hfp, hdone, hend, hlen⟩ | ⟨hfp, hpos⟩
    · simp only [hdone, hend, Bool.false_eq_true, if_false]
      intro _
      repeat' split
      all_goals
        rw [fmLoop_posid_two q ebf ebb fw t3 l2r q.length _ rfl rfl hfp]
      all_goals exact hlen
    · intro _
      repeat' split
      all_goals first
        | exact hpos
        | (rw [fmLoop_posid_const q ebf ebb fw t3 l2r _ _ hfp]; exact hpos)

theorem fmRoot_posid_hyp (q : DescentQuery) (ebf ebb : Ebwt)
    (fw t3 l2r : Bool) (d0 : Descent) (re : RedState) (pf : List DescentPos)
    (o5 o3 : Nat) (m : Nat) (hm : m ≤ pf.length) :
    (fmRoot q ebf ebb fw t3 l2r d0 re pf o5 o3).ok = true →
      ((fmRoot q ebf ebb fw t3 l2r d0 re pf o5 o3).firstPos = true ∧
        (fmRoot q ebf ebb fw t3 l2r d0 re pf o5 o3).done = false ∧
        (fmRoot q ebf ebb fw t3 l2r d0 re pf o5 o3).hitEnd = false ∧
        m ≤ (fmRoot q ebf ebb fw t3 l2r d0 re pf o5 o3).pf.length) ∨
      ((fmRoot q ebf ebb fw t3 l2r d0 re pf o5 o3).firstPos = false ∧
        m ≤ (fmRoot q ebf ebb fw t3 l2r d0 re pf o5 o3).d.posid) := by
  intro hok
  have h := fmRoot_char q ebf ebb fw t3 l2r d0 re pf o5 o3
  unfold fmRootCharP at h
  rcases h with ⟨hok2, _, _⟩ | ⟨hpos, hfp, _⟩
  · rw [hok] at hok2; cases hok2
  · exact Or.inr ⟨hfp, by rw [hpos]; exact hm⟩

theorem fm_pres (q : DescentQuery) (ebf ebb : Ebwt) (rs : List DescentRoot)
    (dIn : Descent) (re : RedState) (pf : List DescentPos) (sink : Sink)
    (m : Nat) (hm : m ≤ pf.length) :
    m ≤ (followMatches q ebf ebb rs dIn re pf sink).pf.length ∧
    (followMatches q ebf ebb rs dIn re pf sink).pf.take m = pf.take m := by
  simp only [followMatches]
  split
  · exact fmFinish_pres q ebf ebb _ _ _ sink _ m pf
      ⟨(fmRoot_props q ebf ebb _ _ _ _ re pf _ _ m hm).1,
       (fmRoot_props q ebf ebb _ _ _ _ re pf _ _ m hm).2.1,
       (fmRoot_props q ebf ebb _ _ _ _ re pf _ _ m hm).2.2.1⟩
  · exact fmFinish_pres q ebf ebb _ _ _ sink _ m pf ⟨hm, rfl, Or.inl rfl⟩

theorem fm_posid (q : DescentQuery) (ebf ebb : Ebwt) (rs : List DescentRoot)
    (dIn : Descent) (re : RedState) (pf : List DescentPos) (sink : Sink)
    (m : Nat) (hm : m ≤ pf.length) :
    (followMatches q ebf ebb rs dIn re pf sink).succ = true →
      m ≤ (followMatches q ebf ebb rs dIn re pf sink).d.posid := by
  simp only [followMatches]
  split
  · exact fmFinish_posid q ebf ebb _ _ _ sink _ m
      (fmRoot_posid_hyp q ebf ebb _ _ _ _ re pf _ _ m hm)
  · exact fmFinish_posid q ebf ebb _ _ _ sink _ m
      (fun _ => Or.inl ⟨rfl, rfl, rfl, hm⟩)

theorem rollbackStep_pres (p : Bool × EngineSt) (dfsz pfsz : Nat)
    (n m : Nat) (df0 : List Descent) (pf0 : List DescentPos)
    (hn : n ≤ dfsz) (hm : m ≤ pfsz)
    (h1 : dfsz ≤ p.2.df.length) (h2 : p.2.df.take n = df0.take n)
    (h3 : pfsz ≤ p.2.pf.length) (h4 : p.2.pf.take m = pf0.take m) :
    n ≤ (rollbackStep p dfsz pfsz).2.df.length ∧
    (rollbackStep p dfsz pfsz).2.df.take n = df0.take n ∧
    m ≤ (rollbackStep p dfsz pfsz).2.pf.length ∧
    (rollbackStep p dfsz pfsz).2.pf.take m = pf0.take m := by
  simp only [rollbackStep]
  split
  · exact ⟨le_trans hn h1, h2, le_trans hm h3, h4⟩
  · refine ⟨?_, ?_, ?_, ?_⟩
    · rw [List.length_take]; omega
    · rw [List.take_take, Nat.min_eq_left hn, h2]
    · rw [List.length_take]; omega
    · rw [List.take_take, Nat.min_eq_left hm, h4]

theorem initFinish_pres (q : DescentQuery) (sc : Scoring)
    (rs : List DescentRoot) (cs : List DescentConfig) (descid : Nat)
    (fm : FMOut) (bres : Bool × EngineSt) (n m : Nat)
    (df0 : List Descent) (pf0 : List DescentPos)
    (hn : n ≤ descid)
    (hdf : n ≤ bres.2.df.length)
    (hdft : bres.2.df.take n = df0.take n)
    (hpf : m ≤ bres.2.pf.length)
    (hpft : bres.2.pf.take m = pf0.take m)
    (hpos : fm.succ = true → m ≤ fm.d.posid) :
    n ≤ (initFinish q sc rs cs descid fm bres).2.df.length ∧
    (initFinish q sc rs cs descid fm bres).2.df.take n = df0.take n ∧
    m ≤ (initFinish q sc rs cs descid fm bres).2.pf.length ∧
    (initFinish q sc rs cs descid fm bres).2.pf.take m = pf0.take m := by
  simp only [initFinish]
  split
  next hsucc =>
    have hr := recalcOutgoing_pres q sc bres.2.re bres.2.pf rs cs fm.d m
      (hpos hsucc)
    refine ⟨?_, ?_, ?_, ?_⟩
    · simp only [aset, List.length_set]; exact hdf
    · rw [take_aset _ _ _ _ hn]; exact hdft
    · rw [hr.1]; exact hpf
    · rw [hr.2]; exact hpft
  · exact ⟨hdf, hdft, hpf, hpft⟩

theorem initBranchBody_pres (q : DescentQuery) (sc : Scoring) (ebf ebb : Ebwt)
    (rs : List DescentRoot) (cs : List DescentConfig)
    (bounceRes : FMOut → EngineSt → Bool × EngineSt)
    (a : InitArgs) (st : EngineSt) (n m : Nat)
    (hn1 : n ≤ a.descid) (hn2 : n ≤ st.df.length) (hm : m ≤ st.pf.length)
    (hb : ∀ fm st1, n ≤ st1.df.length → st1.df.take n = st.df.take n →
      m ≤ st1.pf.length → st1.pf.take m = st.pf.take m →
      n ≤ (bounceRes fm st1).2.df.length ∧
      (bounceRes fm st1).2.df.take n = st.df.take n ∧
      m ≤ (bounceRes fm st1).2.pf.length ∧
      (bounceRes fm st1).2.pf.take m = st.pf.take m) :
    n ≤ (initBranchBody q sc ebf ebb rs cs bounceRes a st).2.df.length ∧
    (initBranchBody q sc ebf ebb rs cs bounceRes a st).2.df.take n =
      st.df.take n ∧
    m ≤ (initBranchBody q sc ebf ebb rs cs bounceRes a st).2.pf.length ∧
    (initBranchBody q sc ebf ebb rs cs bounceRes a st).2.pf.take m =
      st.pf.take m := by
  obtain ⟨hpl, hpt⟩ := fm_pres q ebf ebb rs
    (descentInitFields a (aget st.df a.parent).gapadd) st.re st.pf st.sink m hm
  have hpos := fm_posid q ebf ebb rs
    (descentInitFields a (aget st.df a.parent).gapadd) st.re st.pf st.sink m hm
  have hdfl : n ≤ (aset (aset st.df a.descid
      (descentInitFields a (aget st.df a.parent).gapadd)) a.descid
      (followMatches q ebf ebb rs
        (descentInitFields a (aget st.df a.parent).gapadd)
        st.re st.pf st.sink).d).length := by
    simp only [aset, List.length_set]; exact hn2
  have hdft : (aset (aset st.df a.descid
      (descentInitFields a (aget st.df a.parent).gapadd)) a.descid
      (followMatches q ebf ebb rs
        (descentInitFields a (aget st.df a.parent).gapadd)
        st.re st.pf st.sink).d).take n = st.df.take n := by
    rw [take_aset _ _ _ _ hn1, take_aset _ _ _ _ hn1]
  simp only [initBranchBody]
  split
  · exact initFinish_pres q sc rs cs a.descid _ _ n m st.df st.pf hn1
      (hb _ _ hdfl hdft hpl hpt).1 (hb _ _ hdfl hdft hpl hpt).2.1
      (hb _ _ hdfl hdft hpl hpt).2.2.1 (hb _ _ hdfl hdft hpl hpt).2.2.2 hpos
  · exact initFinish_pres q sc rs cs a.descid _ _ n m st.df st.pf hn1
      hdfl hdft hpl hpt hpos

theorem initBranch_pres (q : DescentQuery) (sc : Scoring) (ebf ebb : Ebwt)
    (rs : List DescentRoot) (cs : List DescentConfig) :
    ∀ (bfuel : Nat) (a : InitArgs) (st : EngineSt) (n m : Nat),
      n ≤ a.descid → n ≤ st.df.length → m ≤ st.pf.length →
      n ≤ (initBranch q sc ebf ebb rs cs bfuel a st).2.df.length ∧
      (initBranch q sc ebf ebb rs cs bfuel a st).2.df.take n =
        st.df.take n ∧
      m ≤ (initBranch q sc ebf ebb rs cs bfuel a st).2.pf.length ∧
      (initBranch q sc ebf ebb rs cs bfuel a st).2.pf.take m =
        st.pf.take m := by
  intro bfuel
  induction bfuel with
  | zero =>
    intro a st n m hn1 hn2 hm
    simp only [initBranch]
    exact initBranchBody_pres q sc ebf ebb rs cs _ a st n m hn1 hn2 hm
      (fun fm st1 h1 h2 h3 h4 => ⟨h1, h2, h3, h4⟩)
  | succ bf ih =>
    intro a st n m hn1 hn2 hm
    simp only [initBranch]
    refine initBranchBody_pres q sc ebf ebb rs cs _ a st n m hn1 hn2 hm ?_
    intro fm st1 h1 h2 h3 h4
    have hia := ih (bounceInitArgs fm.d fm.tfB fm.bfB fm.tbB fm.bbB
        st1.df.length)
      { st1 with df := st1.df ++ [default] } st1.df.length st1.pf.length
      (le_refl _) (by simp) (le_refl _)
    have hib := ih (bounceInitArgs fm.d fm.tfB fm.bfB fm.tbB fm.bbB
        st1.df.length)
      { st1 with df := st1.df ++ [default] } n m
      h1 (by simp; omega) h3
    refine rollbackStep_pres _ _ _ n m st.df st.pf h1 h3 hia.1 ?_ hia.2.2.1 ?_
    · rw [hib.2.1]
      simp only []
      rw [List.take_append_of_le_length h1, h2]
    · rw [hib.2.2.2]
      exact h4

theorem initRollbackWith_eq (ini : InitArgs → EngineSt → Bool × EngineSt)
    (dfsz pfsz : Nat) (a : InitArgs) (st : EngineSt) :
    initRollbackWith ini dfsz pfsz a st = rollbackStep (ini a st) dfsz pfsz :=
  rfl

theorem bounce_pres (q : DescentQuery) (sc : Scoring) (ebf ebb : Ebwt)
    (rs : List DescentRoot) (cs : List DescentConfig) (bfuel : Nat)
    (d : Descent) (tf bf tb bb : Nat) (st : EngineSt) (n m : Nat)
    (hn : n ≤ st.df.length) (hm : m ≤ st.pf.length) :
    n ≤ (bounce q sc ebf ebb rs cs bfuel d tf bf tb bb st).2.df.length ∧
    (bounce q sc ebf ebb rs cs bfuel d tf bf tb bb st).2.df.take n =
      st.df.take n ∧
    m ≤ (bounce q sc ebf ebb rs cs bfuel d tf bf tb bb st).2.pf.length ∧
    (bounce q sc ebf ebb rs cs bfuel d tf bf tb bb st).2.pf.take m =
      st.pf.take m := by
  have hia := initBranch_pres q sc ebf ebb rs cs bfuel
    (bounceInitArgs d tf bf tb bb st.df.length)
    { st with df := st.df ++ [default] } st.df.length st.pf.length
    (le_refl _) (by simp) (le_refl _)
  have hib := initBranch_pres q sc ebf ebb rs cs bfuel
    (bounceInitArgs d tf bf tb bb st.df.length)
    { st with df := st.df ++ [default] } n m hn (by simp; omega) hm
  simp only [bounce, initRollbackWith_eq]
  refine rollbackStep_pres _ _ _ n m st.df st.pf hn hm hia.1 ?_ hia.2.2.1 ?_
  · rw [hib.2.1]
    simp only []
    rw [List.take_append_of_le_length hn]
  · exact hib.2.2.2

theorem initRoot_pres (q : DescentQuery) (sc : Scoring) (ebf ebb : Ebwt)
    (rs : List DescentRoot) (cs : List DescentConfig) (bfuel : Nat)
    (rid descid : Nat) (st : EngineSt) (n m : Nat)
    (hn1 : n ≤ descid) (hn2 : n ≤ st.df.length) (hm : m ≤ st.pf.length) :
    n ≤ (initRoot q sc ebf ebb rs cs bfuel rid descid st).2.df.length ∧
    (initRoot q sc ebf ebb rs cs bfuel rid descid st).2.df.take n =
      st.df.take n ∧
    m ≤ (initRoot q sc ebf ebb rs cs bfuel rid descid st).2.pf.length ∧
    (initRoot q sc ebf ebb rs cs bfuel rid descid st).2.pf.take m =
      st.pf.take m := by
  obtain ⟨hpl, hpt⟩ := fm_pres q ebf ebb rs
    { rid := rid, al5pi := (aget rs rid).off5p, al5pf := (aget rs rid).off5p,
      l2r := (aget rs rid).l2r, topf := 0, botf := 0, topb := 0, botb := 0,
      descid := descid, parent := none, pen := 0, posid := 0, len := 0,
      out := [], edit := none, lastRecalc := true, gapadd := 0, off5p_i := 0 }
    st.re st.pf st.sink m hm
  have hpos := fm_posid q ebf ebb rs
    { rid := rid, al5pi := (aget rs rid).off5p, al5pf := (aget rs rid).off5p,
      l2r := (aget rs rid).l2r, topf := 0, botf := 0, topb := 0, botb := 0,
      descid := descid, parent := none, pen := 0, posid := 0, len := 0,
      out := [], edit := none, lastRecalc := true, gapadd := 0, off5p_i := 0 }
    st.re st.pf st.sink m hm
  have hdfl : n ≤ (aset (aset st.df descid
      { rid := rid, al5pi := (aget rs rid).off5p,
        al5pf := (aget rs rid).off5p, l2r := (aget rs rid).l2r, topf := 0,
        botf := 0, topb := 0, botb := 0, descid := descid, parent := none,
        pen := 0, posid := 0, len := 0, out := [], edit := none,
        lastRecalc := true, gapadd := 0, off5p_i := 0 }) descid
      (followMatches q ebf ebb rs
        { rid := rid, al5pi := (aget rs rid).off5p,
          al5pf := (aget rs rid).off5p, l2r := (aget rs rid).l2r, topf := 0,
          botf := 0, topb := 0, botb := 0, descid := descid, parent := none,
          pen := 0, posid := 0, len := 0, out := [], edit := none,
          lastRecalc := true, gapadd := 0, off5p_i := 0 }
        st.re st.pf st.sink).d).length := by
    simp only [aset, List.length_set]; exact hn2
  have hdft : (aset (aset st.df descid
      { rid := rid, al5pi := (aget rs rid).off5p,
        al5pf := (aget rs rid).off5p, l2r := (aget rs rid).l2r, topf := 0,
        botf := 0, topb := 0, botb := 0, descid := descid, parent := none,
        pen := 0, posid := 0, len := 0, out := [], edit := none,
        lastRecalc := true, gapadd := 0, off5p_i := 0 }) descid
      (followMatches q ebf ebb rs
        { rid := rid, al5pi := (aget rs rid).off5p,
          al5pf := (aget rs rid).off5p, l2r := (aget rs rid).l2r, topf := 0,
          botf := 0, topb := 0, botb := 0, descid := descid, parent := none,
          pen := 0, posid := 0, len := 0, out := [], edit := none,
          lastRecalc := true, gapadd := 0, off5p_i := 0 }
        st.re st.pf st.sink).d).take n = st.df.take n := by
    rw [take_aset _ _ _ _ hn1, take_aset _ _ _ _ hn1]
  simp only [initRoot]
  split
  · refine initFinish_pres q sc rs cs descid _ _ n m st.df st.pf hn1
      ?_ ?_ ?_ ?_ hpos
    · exact (bounce_pres q sc ebf ebb rs cs bfuel _ _ _ _ _ _ n m
        hdfl hpl).1
    · exact ((bounce_pres q sc ebf ebb rs cs bfuel _ _ _ _ _ _ n m
        hdfl hpl).2.1).trans hdft
    · exact (bounce_pres q sc ebf ebb rs cs bfuel _ _ _ _ _ _ n m
        hdfl hpl).2.2.1
    · exact ((bounce_pres q sc ebf ebb rs cs bfuel _ _ _ _ _ _ n m
        hdfl hpl).2.2.2).trans hpt
  · exact initFinish_pres q sc rs cs descid _ _ n m st.df st.pf hn1
      hdfl hdft hpl hpt hpos

theorem rootInitRollbackWith_eq (ini : Nat → Nat → EngineSt → Bool × EngineSt)
    (dfsz pfsz rid descid : Nat) (st : EngineSt) :
    rootInitRollbackWith ini dfsz pfsz rid descid st =
      rollbackStep (ini rid descid st) dfsz pfsz := rfl

theorem initRollbackWith_restores (q : DescentQuery) (sc : Scoring)
    (ebf ebb : Ebwt) (rs : List DescentRoot) (cs : List DescentConfig)
    (bfuel : Nat) (a : InitArgs) (df0 : List Descent) (st : EngineSt)
    (hdf : st.df = df0 ++ [default]) (hda : df0.length ≤ a.descid)
    (hfail : (initRollbackWith (initBranch q sc ebf ebb rs cs bfuel)
      df0.length st.pf.length a st).1 = false) :
    (initRollbackWith (initBranch q sc ebf ebb rs cs bfuel)
      df0.length st.pf.length a st).2.df = df0 ∧
    (initRollbackWith (initBranch q sc ebf ebb rs cs bfuel)
      df0.length st.pf.length a st).2.pf = st.pf := by
  have hp := initBranch_pres q sc ebf ebb rs cs bfuel a st df0.length
    st.pf.length hda (by rw [hdf, List.length_append]; omega) (le_refl _)
  rw [initRollbackWith_eq] at hfail ⊢
  by_cases h1 : (initBranch q sc ebf ebb rs cs bfuel a st).1 = true
  · simp [rollbackStep, h1] at hfail
  · simp only [rollbackStep]
    rw [if_neg h1]
    constructor
    · show (initBranch q sc ebf ebb rs cs bfuel a st).2.df.take df0.length =
        df0
      rw [hp.2.1, hdf, List.take_append_of_le_length (le_refl _),
        List.take_length]
    · show (initBranch q sc ebf ebb rs cs bfuel a st).2.pf.take
        st.pf.length = st.pf
      rw [hp.2.2.2, List.take_length]

theorem rootInitRollbackWith_restores (q : DescentQuery) (sc : Scoring)
    (ebf ebb : Ebwt) (rs : List DescentRoot) (cs : List DescentConfig)
    (bfuel i : Nat) (st : EngineSt)
    (hfail : (rootInitRollbackWith (initRoot q sc ebf ebb rs cs bfuel)
      st.df.length st.pf.length i st.df.length
      { st with df := st.df ++ [default] }).1 = false) :
    (rootInitRollbackWith (initRoot q sc ebf ebb rs cs bfuel)
      st.df.length st.pf.length i st.df.length
      { st with df := st.df ++ [default] }).2.df = st.df ∧
    (rootInitRollbackWith (initRoot q sc ebf ebb rs cs bfuel)
      st.df.length st.pf.length i st.df.length
      { st with df := st.df ++ [default] }).2.pf = st.pf := by
  have hp := initRoot_pres q sc ebf ebb rs cs bfuel i st.df.length
    { st with df := st.df ++ [default] } st.df.length st.pf.length
    (le_refl _) (by simp) (le_refl _)
  rw [rootInitRollbackWith_eq] at hfail ⊢
  by_cases h1 : (initRoot q sc ebf ebb rs cs bfuel i st.df.length
      { st with df := st.df ++ [default] }).1 = true
  · simp [rollbackStep, h1] at hfail
  · simp only [rollbackStep]
    rw [if_neg h1]
    constructor
    · show (initRoot q sc ebf ebb rs cs bfuel i st.df.length
        { st with df := st.df ++ [default] }).2.df.take st.df.length = st.df
      rw [hp.2.1]
      show (st.df ++ [default]).take st.df.length = st.df
      rw [List.take_append_of_le_length (le_refl _), List.take_length]
    · show (initRoot q sc ebf ebb rs cs bfuel i st.df.length
        { st with df := st.df ++ [default] }).2.pf.take st.pf.length = st.pf
      rw [hp.2.2.2]
      show st.pf.take st.pf.length = st.pf
      rw [List.take_length]

theorem bounce_restores (q : DescentQuery) (sc : Scoring) (ebf ebb : Ebwt)
    (rs : List DescentRoot) (cs : List DescentConfig) (bfuel : Nat)
    (d : Descent) (tf bf tb bb : Nat) (st : EngineSt)
    (hfail : (bounce q sc ebf ebb rs cs bfuel d tf bf tb bb st).1 = false) :
    (bounce q sc ebf ebb rs cs bfuel d tf bf tb bb st).2.df = st.df ∧
    (bounce q sc ebf ebb rs cs bfuel d tf bf tb bb st).2.pf = st.pf :=
  initRollbackWith_restores q sc ebf ebb rs cs bfuel
    (bounceInitArgs d tf bf tb bb st.df.length) st.df
    { st with df := st.df ++ [default] } rfl (le_refl _) hfail

/-! ## Claim theorems -/

/-- Helper: every candidate recalcOutgoing offers respects the budget. -/
theorem recalcOutgoing_pen (q : DescentQuery) (sc : Scoring) (re : RedState)
    (pf : List DescentPos) (rs : List DescentRoot) (cs : List DescentConfig)
    (d : Descent) :
    ∀ em ∈ (recalcOutgoing q sc re pf rs cs d).emitted,
      em.1.pri.pen ≤ (aget cs d.rid).cons em.1.pri.depth := by
  intro em hm
  simp only [recalcOutgoing] at hm
  exact recalcLoop_pen _ _ _ (by intro em' hm'; simp at hm') em hm

/-- C1: every outgoing edge emitted by recalcOutgoing respects the per-depth
    penalty budget: the edge's priority penalty (the descent's penalty plus
    the edit cost) is at most cons at the edge's depth; and the comparison
    is non-strict: a concrete candidate whose total penalty equals cons at
    its depth exactly is accepted. -/
theorem recalc_respects_budget :
    (∀ (q : DescentQuery) (sc : Scoring) (re : RedState)
       (pf : List DescentPos) (rs : List DescentRoot)
       (cs : List DescentConfig) (d : Descent),
       ∀ em ∈ (recalcOutgoing q sc re pf rs cs d).emitted,
         em.1.pri.pen ≤ (aget cs d.rid).cons em.1.pri.depth) ∧
    ((recalcOutgoing cQ4 cScA [] cPf4 cRoots cCs3 cdRec).emitted.any
        (fun em => decide (em.1.pri.pen = 3 ∧ em.1.pri.depth = 0)) = true ∧
      (aget cCs3 cdRec.rid).cons 0 = 3) := by
  refine ⟨recalcOutgoing_pen, ?_, ?_⟩ <;> decide

/-- Helper: the gap-open side conditions of recalcOutgoing. -/
theorem recalcOutgoing_gap_open (q : DescentQuery) (sc : Scoring)
    (re : RedState) (pf : List DescentPos) (rs : List DescentRoot)
    (cs : List DescentConfig) (d : Descent) (h : d.off5p_i < q.length) :
    ∀ em ∈ (recalcOutgoing q sc re pf rs cs d).emitted,
      (em.2 = EdgeTag.rdgOpen ∨ em.2 = EdgeTag.rfgOpen) →
        sc.gapbar ≤ em.1.off5p ∧ sc.gapbar ≤ q.length - em.1.off5p - 1 ∧
        allmatchAt pf em.1.posFlag d.l2r
          (q.getc em.1.off5p (aget rs d.rid).fw) = false := by
  intro em hm
  simp only [recalcOutgoing] at hm
  have h0 : RInv
      { q := q, sc := sc, re := re, cons := (aget cs d.rid).cons,
        fw := (aget rs d.rid).fw, l2r := d.l2r,
        toward3p := d.l2r = (aget rs d.rid).fw,
        rootpri := (aget rs d.rid).pri, pen := d.pen, gapadd := d.gapadd,
        edit := d.edit, off5p_i := d.off5p_i, al5pi := d.al5pi,
        al5pf := d.al5pf,
        extrai := if d.l2r = (aget rs d.rid).fw then 0
          else if 0 < d.al5pi then 1 else 0,
        extraf := if d.l2r = (aget rs d.rid).fw then
          (if d.al5pf < q.length - 1 then 1 else 0) else 0 }
      pf
      { dIdx := d.posid,
        depth := if d.l2r = (aget rs d.rid).fw then d.off5p_i - d.al5pi
          else d.al5pf - d.off5p_i,
        off5p := d.off5p_i, off3p := q.length - d.off5p_i - 1,
        cur5pi := if d.l2r = (aget rs d.rid).fw then d.al5pi else d.off5p_i,
        cur5pf := if d.l2r = (aget rs d.rid).fw then d.off5p_i else d.al5pf,
        top := if d.l2r then d.topb else d.topf,
        bot := if d.l2r then d.botb else d.botf,
        topp := if d.l2r then d.topf else d.topb,
        botp := if d.l2r then d.botf else d.botb,
        pf := pf, out := [], emitted := [], nout := 0 } :=
    ⟨h, rfl, rangesEq_refl pf, by intro em' hm'; simp at hm'⟩
  have hres := recalcLoop_inv _ pf (q.length + 2) _ h0
  exact (hres.2.2.2 em hm).2

/-- C6: recalcOutgoing emits a gap-open edge (read gap or ref gap) only when
    not all surviving SA-range width lies under the matching base at that
    position and the position sits at least gapbar from both read ends;
    mismatch edges are not subject to the gapbar restriction (a concrete
    mismatch edge is emitted at an offset closer than gapbar to the read
    end). -/
theorem recalc_gap_open_conditions :
    (∀ (q : DescentQuery) (sc : Scoring) (re : RedState)
       (pf : List DescentPos) (rs : List DescentRoot)
       (cs : List DescentConfig) (d : Descent),
       d.off5p_i < q.length →
       ∀ em ∈ (recalcOutgoing q sc re pf rs cs d).emitted,
         (em.2 = EdgeTag.rdgOpen ∨ em.2 = EdgeTag.rfgOpen) →
           sc.gapbar ≤ em.1.off5p ∧
           sc.gapbar ≤ q.length - em.1.off5p - 1 ∧
           allmatchAt pf em.1.posFlag d.l2r
             (q.getc em.1.off5p (aget rs d.rid).fw) = false) ∧
    ((recalcOutgoing cQ4 cScC [] cPf4 cRoots cCs9 cdRec).emitted.any
        (fun em => decide (em.2 = EdgeTag.mm ∧ em.1.off5p < cScC.gapbar))
      = true) := by
  refine ⟨recalcOutgoing_gap_open, ?_⟩
  decide

/-- C6 witness: the gap-open conditions applied at a concrete instance that
    emits read-gap-open and ref-gap-open edges. -/
theorem recalc_gap_open_conditions_witness :
    ∀ em ∈ (recalcOutgoing cQ4 cScA [] cPf4 cRoots cCs9 cdRec).emitted,
      (em.2 = EdgeTag.rdgOpen ∨ em.2 = EdgeTag.rfgOpen) →
        cScA.gapbar ≤ em.1.off5p ∧
        cScA.gapbar ≤ cQ4.length - em.1.off5p - 1 ∧
        allmatchAt cPf4 em.1.posFlag cdRec.l2r
          (cQ4.getc em.1.off5p (aget cRoots cdRec.rid).fw) = false :=
  recalc_gap_open_conditions.1 cQ4 cScA [] cPf4 cRoots cCs9 cdRec (by decide)

/-- C7: when followMatches reaches one read end with the other still
    unaligned, bounce initializes the child descent with the same al5pi and
    al5pf as the parent, the same cumulative penalty, the opposite extension
    direction, an empty incoming edit, the SA range reached at the extremity,
    and (because the edit is empty) a gapadd equal to the parent's. -/
theorem bounce_child_fields (st : EngineSt) (d : Descent) (tf bf tb bb id : Nat)
    (hp : aget st.df d.descid = d) :
    descentInitFields (bounceInitArgs d tf bf tb bb id)
        ((aget st.df (bounceInitArgs d tf bf tb bb id).parent).gapadd) =
      { rid := d.rid, al5pi := d.al5pi, al5pf := d.al5pf, l2r := !d.l2r,
        topf := tf, botf := bf, topb := tb, botb := bb, descid := id,
        parent := some d.descid, pen := d.pen, posid := 0, len := 0, out := [],
        edit := none, lastRecalc := true, gapadd := d.gapadd, off5p_i := 0 } := by
  simp [descentInitFields, bounceInitArgs, hp]

/-- C7 witness: the field equality evaluated at a concrete parent and range. -/
theorem bounce_child_fields_witness :
    descentInitFields (bounceInitArgs cdP 1 2 3 4 1)
        ((aget cSt7.df (bounceInitArgs cdP 1 2 3 4 1).parent).gapadd) =
      { rid := cdP.rid, al5pi := cdP.al5pi, al5pf := cdP.al5pf,
        l2r := !cdP.l2r, topf := 1, botf := 2, topb := 3, botb := 4,
        descid := 1, parent := some cdP.descid, pen := cdP.pen, posid := 0,
        len := 0, out := [], edit := none, lastRecalc := true,
        gapadd := cdP.gapadd, off5p_i := 0 } :=
  bounce_child_fields cSt7 cdP 1 2 3 4 1 rfl

/-- C8: the destination SA range taken by followBestOutgoing equals the rule
    stated by the spec: a reference-gap edge at descent offset 0 inherits the
    parent's own range unchanged, a reference-gap edge deeper takes the
    record one earlier than the edit's depth indexed by that record's stored
    character, and mismatch and read-gap edges take the record at the edit's
    own depth indexed by the edit's destination base. -/
theorem resolveEdgeRange_matches_spec (d : Descent) (pf : List DescentPos)
    (e : DescentEdge) (doff : Nat) :
    resolveEdgeRange d pf e doff = resolveEdgeRangeSpec d pf e doff := by
  rcases e with ⟨ed, off5p, pri, posFlag⟩
  rcases ed with ⟨pos, chr, qchr, ty, pos2⟩
  cases ty <;> cases doff <;>
    simp [resolveEdgeRange, resolveEdgeRangeSpec, Edit.isRefGap]

/-- C9: the search is deterministic: two runs of go from fresh driver state
    with identical query, roots, configs, scoring and indices produce
    identical sink contents. -/
theorem go_deterministic (q : DescentQuery) (sc : Scoring) (ebf ebb : Ebwt)
    (rs : List DescentRoot) (cs : List DescentConfig) (bfuel fuel : Nat)
    (s1 s2 : EngineSt)
    (h1 : s1 = go q sc ebf ebb rs cs bfuel fuel)
    (h2 : s2 = go q sc ebf ebb rs cs bfuel fuel) :
    s1.sink = s2.sink := by
  subst h1; subst h2; rfl

/-- C9 witness: two concrete runs agree. -/
theorem go_deterministic_witness :
    (go cQ4 cScA cEb5f cEb5b cRoots cCs0 2 5).sink =
      (go cQ4 cScA cEb5f cEb5b cRoots cCs0 2 5).sink :=
  go_deterministic cQ4 cScA cEb5f cEb5b cRoots cCs0 2 5 _ _ rfl rfl

/-- Helper: the finishing stage of followMatches propagates the usedFtab
    flag of its root-block input unchanged. -/
theorem fmFinish_usedFtab (q : DescentQuery) (ebf ebb : Ebwt)
    (fw toward3p l2r : Bool) (sink : Sink) (mid : FMMid) :
    (fmFinish q ebf ebb fw toward3p l2r sink mid).usedFtab = mid.usedFtab := by
  simp only [fmFinish]
  repeat' split
  all_goals rfl

/-- Helper: the finishing stage of followMatches returns mid.ok as its
    success flag: every exit after the root block returns true. -/
theorem fmFinish_succ (q : DescentQuery) (ebf ebb : Ebwt)
    (fw toward3p l2r : Bool) (sink : Sink) (mid : FMMid) :
    (fmFinish q ebf ebb fw toward3p l2r sink mid).succ = mid.ok := by
  simp only [fmFinish]
  repeat' split
  all_goals simp_all

/-- Helper: the step loop of followMatches never produces a failure return;
    every exit of followMatches after the root block returns true. -/
theorem fm_succ_false_root (q : DescentQuery) (ebf ebb : Ebwt)
    (rs : List DescentRoot) (dIn : Descent) (re : RedState)
    (pf : List DescentPos) (sink : Sink)
    (h : (followMatches q ebf ebb rs dIn re pf sink).succ = false) :
    dIn.parent = none := by
  cases hp : dIn.parent with
  | none => rfl
  | some p =>
    exfalso
    simp [followMatches, Descent.root, hp, fmFinish_succ] at h

/-- C2 counterexample: with the redundancy filter pre-seeded with the key of
    the second extension step at penalty 0, followMatches on cQ3 stalls at
    that step (length stays 1 instead of 3) yet returns true, not false; the
    same inputs with an empty filter extend to length 3. -/
theorem fm_stall_counterexample :
    (followMatches cQ3 cEb2 cEb2 cRoots cdRoot3 cRe2 [] []).succ = true ∧
    (followMatches cQ3 cEb2 cEb2 cRoots cdRoot3 cRe2 [] []).hitEnd = false ∧
    (followMatches cQ3 cEb2 cEb2 cRoots cdRoot3 cRe2 [] []).done = false ∧
    (followMatches cQ3 cEb2 cEb2 cRoots cdRoot3 cRe2 [] []).d.len = 1 ∧
    reContains cRe2 cKey2 0 = true ∧
    (followMatches cQ3 cEb2 cEb2 cRoots cdRoot3 [] [] []).d.len = 3 := by
  decide

/-- C2 (amended): the redundancy check is called after the root first step
    and after every successful extension step, but only a failure of the
    root-step check makes followMatches return false; a failing per-step
    check merely stalls the extension loop while followMatches still returns
    true, so no caller rollback happens for it. -/
theorem fm_redundancy_stall :
    (∀ (q : DescentQuery) (ebf ebb : Ebwt) (rs : List DescentRoot)
       (dIn : Descent) (re : RedState) (pf : List DescentPos) (sink : Sink),
       (followMatches q ebf ebb rs dIn re pf sink).succ = false →
       dIn.parent = none) ∧
    (followMatches cQ3 cEb2 cEb2 cRoots cdRoot3 cRe2R [] []).succ = false := by
  constructor
  · exact fm_succ_false_root
  · decide

/-- C2 witness: the general part applied at the concrete root whose
    root-step check fails. -/
theorem fm_redundancy_stall_witness : cdRoot3.parent = none :=
  fm_redundancy_stall.1 cQ3 cEb2 cEb2 cRoots cdRoot3 cRe2R [] [] (by decide)

/-- Helper: the root block reports the ftab shortcut as used exactly when
    its guard condition holds. -/
theorem fmRoot_usedFtab (q : DescentQuery) (ebf ebb : Ebwt)
    (fw t3 l2r : Bool) (d0 : Descent) (re : RedState) (pf : List DescentPos)
    (o5 o3 : Nat) :
    (fmRoot q ebf ebb fw t3 l2r d0 re pf o5 o3).usedFtab =
      fmUseFtab q.length t3 o5 ebf.ftabChars := by
  simp only [fmRoot]
  by_cases hcond : fmUseFtab q.length t3 o5 ebf.ftabChars = true
  · rw [if_pos hcond, hcond]
    repeat' split
    all_goals rfl
  · rw [if_neg hcond]
    simp only [Bool.not_eq_true] at hcond
    rw [hcond]
    repeat' split
    all_goals rfl

/-- Helper: followMatches reports the ftab shortcut as used exactly when the
    descent is a root and the guard condition holds at the normalized
    direction and offset. -/
theorem fm_usedFtab (q : DescentQuery) (ebf ebb : Ebwt)
    (rs : List DescentRoot) (dIn : Descent) (re : RedState)
    (pf : List DescentPos) (sink : Sink) :
    (followMatches q ebf ebb rs dIn re pf sink).usedFtab =
      (dIn.parent.isNone &&
        fmUseFtab q.length
          (fmAdjust q.length dIn.al5pi dIn.al5pf dIn.l2r (aget rs dIn.rid).fw).2.1
          (fmAdjust q.length dIn.al5pi dIn.al5pf dIn.l2r (aget rs dIn.rid).fw).2.2
          ebf.ftabChars) := by
  cases hp : dIn.parent with
  | none =>
    simp only [followMatches, Descent.root, hp, Option.isNone, Bool.true_and,
      fmFinish_usedFtab]
    exact fmRoot_usedFtab q ebf ebb _ _ _ _ re pf _ _
  | some p =>
    simp [followMatches, Descent.root, hp, fmFinish_usedFtab]

/-- C5 (amended): at a root, the ftab shortcut is taken exactly when the
    ftab width F satisfies 1 < F, F is at most the no-branch depth 20, and F
    fits on the current side: going toward the 3-prime end the window may
    touch the read end (off5p + F at most the length), while going toward
    the 5-prime end the window must stay one position away from the 5-prime
    end (off5p at least F); otherwise the root falls back to a
    single-character fchr step. -/
theorem ftab_shortcut_condition (q : DescentQuery) (ebf ebb : Ebwt)
    (rs : List DescentRoot) (dIn : Descent) (re : RedState)
    (pf : List DescentPos) (sink : Sink) (hroot : dIn.parent = none) :
    ((followMatches q ebf ebb rs dIn re pf sink).usedFtab = true ↔
      (1 < ebf.ftabChars ∧ ebf.ftabChars ≤ nobranchDepth ∧
        (if (fmAdjust q.length dIn.al5pi dIn.al5pf dIn.l2r (aget rs dIn.rid).fw).2.1
         then ebf.ftabChars +
            (fmAdjust q.length dIn.al5pi dIn.al5pf dIn.l2r (aget rs dIn.rid).fw).2.2
            ≤ q.length
         else ebf.ftabChars ≤
            (fmAdjust q.length dIn.al5pi dIn.al5pf dIn.l2r (aget rs dIn.rid).fw).2.2))) := by
  rw [fm_usedFtab, hroot]
  cases h3 : (fmAdjust q.length dIn.al5pi dIn.al5pf dIn.l2r (aget rs dIn.rid).fw).2.1 <;>
    simp [fmUseFtab, fmFtabFits, h3, Nat.not_lt, and_assoc, Nat.add_comm]

/-- C5 counterexample: a root whose ftab window touches both read ends (the
    width equals the read length and the root sits at offset 0) still takes
    the shortcut, so the claimed at-least-one-position-away-from-either-end
    requirement is not part of the guard. -/
theorem ftab_shortcut_counterexample :
    (followMatches cQ4 cEb5f cEb5b cRoots cdRoot4 [] [] []).usedFtab = true ∧
    cEb5f.ftabChars = cQ4.length ∧ cdRoot4.al5pi = 0 := by decide

/-- C5 witness: the amended guard applied at the concrete boundary root. -/
theorem ftab_shortcut_condition_witness :
    (followMatches cQ4 cEb5f cEb5b cRoots cdRoot4 [] [] []).usedFtab = true :=
  (ftab_shortcut_condition cQ4 cEb5f cEb5b cRoots cdRoot4 [] [] [] rfl).mpr
    (by decide)

/-- C3 counterexample: recalcOutgoing does emit branching edges at depths
    below 20 when the penalty budget allows: at the concrete instance every
    emitted edge sits at depth below 20 and at least one edge is emitted. -/
theorem nobranch_depth_counterexample :
    (recalcOutgoing cQ4 cScA [] cPf4 cRoots cCs9 cdRec).emitted.any
      (fun em => decide (em.1.pri.depth < 20)) = true ∧
    (recalcOutgoing cQ4 cScA [] cPf4 cRoots cCs9 cdRec).nout ≠ 0 := by decide

/-- C3 (amended): the constant 20 (nobranchDepth) is consulted only as a
    bound on the ftab shortcut width: whenever followMatches takes the
    shortcut the ftab width is at most 20; branching within the first 20
    characters is otherwise allowed whenever the cons budget permits. -/
theorem nobranch_depth_ftab_only (q : DescentQuery) (ebf ebb : Ebwt)
    (rs : List DescentRoot) (dIn : Descent) (re : RedState)
    (pf : List DescentPos) (sink : Sink)
    (h : (followMatches q ebf ebb rs dIn re pf sink).usedFtab = true) :
    ebf.ftabChars ≤ nobranchDepth := by
  rw [fm_usedFtab] at h
  simp [fmUseFtab, fmFtabFits] at h
  exact h.2.1.2

/-- C3 witness: the bound applied at the concrete ftab root. -/
theorem nobranch_depth_ftab_only_witness : cEb5f.ftabChars ≤ nobranchDepth :=
  nobranch_depth_ftab_only cQ4 cEb5f cEb5b cRoots cdRoot4 [] [] [] (by decide)

/-- C10: when the best outgoing edge taken by followBestOutgoing completes
    the read, the alignment is reported to the sink with the edge's penalty
    and resolved SA range, and the function returns at once: the heap is
    left exactly as passed in (no re-insertion besides the driver's earlier
    pop), the position arena and the redundancy filter are untouched, and
    the descent arena only carries the one speculative allocation with the
    rotated-off ranker written back. -/
theorem fbo_done_frame (q : DescentQuery) (sc : Scoring) (ebf ebb : Ebwt)
    (rs : List DescentRoot) (cs : List DescentConfig) (bfuel descid : Nat)
    (st : EngineSt) (e : DescentEdge) (rest : List DescentEdge)
    (hout : (aget st.df descid).out = e :: rest)
    (hlr : rest ≠ [] ∨ (aget st.df descid).lastRecalc = true)
    (hdone : (edgeExtents q
        ((aget st.df descid).l2r = (aget rs (aget st.df descid).rid).fw) e
        (aget st.df descid)).done = true) :
    (followBestOutgoing q sc ebf ebb rs cs bfuel descid st).heap = st.heap ∧
    (followBestOutgoing q sc ebf ebb rs cs bfuel descid st).pf = st.pf ∧
    (followBestOutgoing q sc ebf ebb rs cs bfuel descid st).re = st.re ∧
    (followBestOutgoing q sc ebf ebb rs cs bfuel descid st).sink =
      reportAlignment st.sink
        { topf := (resolveEdgeRange (aget st.df descid) st.pf e
            (edgeExtents q
              ((aget st.df descid).l2r = (aget rs (aget st.df descid).rid).fw)
              e (aget st.df descid)).doff).1,
          botf := (resolveEdgeRange (aget st.df descid) st.pf e
            (edgeExtents q
              ((aget st.df descid).l2r = (aget rs (aget st.df descid).rid).fw)
              e (aget st.df descid)).doff).2.1,
          topb := (resolveEdgeRange (aget st.df descid) st.pf e
            (edgeExtents q
              ((aget st.df descid).l2r = (aget rs (aget st.df descid).rid).fw)
              e (aget st.df descid)).doff).2.2.1,
          botb := (resolveEdgeRange (aget st.df descid) st.pf e
            (edgeExtents q
              ((aget st.df descid).l2r = (aget rs (aget st.df descid).rid).fw)
              e (aget st.df descid)).doff).2.2.2,
          descid := (aget st.df descid).descid,
          rid := (aget st.df descid).rid, e := some e.e,
          pen := e.pri.pen } ∧
    (followBestOutgoing q sc ebf ebb rs cs bfuel descid st).df =
      aset st.df descid { aget st.df descid with out := rest } ++ [default] := by
  have hne : (aget st.df descid).out.isEmpty = false := by rw [hout]; rfl
  have hrf : rest.isEmpty = false ∨ (aget st.df descid).lastRecalc = true := by
    rcases hlr with hrest | hlast
    · left; cases rest with
      | nil => exact absurd rfl hrest
      | cons a l => rfl
    · right; exact hlast
  simp only [followBestOutgoing, hne, hout, List.headD_cons, List.tail_cons,
    Bool.false_eq_true, if_false]
  rcases hrf with h1 | h1
  · simp only [h1, Bool.false_and, Bool.and_self, if_false, hdone, if_true,
      Bool.false_eq_true]
    exact ⟨rfl, rfl, rfl, rfl, rfl⟩
  · simp only [h1, Bool.not_true, Bool.and_false, Bool.false_and, if_false,
      hdone, if_true, Bool.false_eq_true]
    exact ⟨rfl, rfl, rfl, rfl, rfl⟩

/-- C10 witness: the done-path frame conditions at a concrete popped descent
    whose best edge completes the read. -/
theorem fbo_done_frame_witness :
    (followBestOutgoing cQ2 cScA cEb2 cEb2 cRoots cCs9 2 0 cSt10).heap =
      cSt10.heap ∧
    (followBestOutgoing cQ2 cScA cEb2 cEb2 cRoots cCs9 2 0 cSt10).pf =
      cSt10.pf ∧
    (followBestOutgoing cQ2 cScA cEb2 cEb2 cRoots cCs9 2 0 cSt10).re =
      cSt10.re :=
  ⟨(fbo_done_frame cQ2 cScA cEb2 cEb2 cRoots cCs9 2 0 cSt10 cE10 [] rfl
      (Or.inr rfl) (by decide)).1,
   (fbo_done_frame cQ2 cScA cEb2 cEb2 cRoots cCs9 2 0 cSt10 cE10 [] rfl
      (Or.inr rfl) (by decide)).2.1,
   (fbo_done_frame cQ2 cScA cEb2 cEb2 cRoots cCs9 2 0 cSt10 cE10 [] rfl
      (Or.inr rfl) (by decide)).2.2.1⟩


/-- C4: whenever an init overload returns false (the new descent produced
    neither outgoing edges nor a bounce child), every caller — the driver's
    root seeding loop, bounce, and followBestOutgoing — resizes both the
    Descent arena and the position-record arena back to the watermarks saved
    immediately before the allocation, so a failed initialization leaves
    both arenas exactly as they were. -/
theorem init_rollback_restores :
    (∀ (q : DescentQuery) (sc : Scoring) (ebf ebb : Ebwt)
       (rs : List DescentRoot) (cs : List DescentConfig) (bfuel i : Nat)
       (st : EngineSt),
       (rootInitRollbackWith (initRoot q sc ebf ebb rs cs bfuel)
         st.df.length st.pf.length i st.df.length
         { st with df := st.df ++ [default] }).1 = false →
       (rootInitRollbackWith (initRoot q sc ebf ebb rs cs bfuel)
         st.df.length st.pf.length i st.df.length
         { st with df := st.df ++ [default] }).2.df = st.df ∧
       (rootInitRollbackWith (initRoot q sc ebf ebb rs cs bfuel)
         st.df.length st.pf.length i st.df.length
         { st with df := st.df ++ [default] }).2.pf = st.pf) ∧
    (∀ (q : DescentQuery) (sc : Scoring) (ebf ebb : Ebwt)
       (rs : List DescentRoot) (cs : List DescentConfig) (bfuel : Nat)
       (d : Descent) (tf bf tb bb : Nat) (st : EngineSt),
       (bounce q sc ebf ebb rs cs bfuel d tf bf tb bb st).1 = false →
       (bounce q sc ebf ebb rs cs bfuel d tf bf tb bb st).2.df = st.df ∧
       (bounce q sc ebf ebb rs cs bfuel d tf bf tb bb st).2.pf = st.pf) ∧
    (∀ (q : DescentQuery) (sc : Scoring) (ebf ebb : Ebwt)
       (rs : List DescentRoot) (cs : List DescentConfig) (bfuel : Nat)
       (a : InitArgs) (df0 : List Descent) (st : EngineSt),
       st.df = df0 ++ [default] → df0.length ≤ a.descid →
       (initRollbackWith (initBranch q sc ebf ebb rs cs bfuel)
         df0.length st.pf.length a st).1 = false →
       (initRollbackWith (initBranch q sc ebf ebb rs cs bfuel)
         df0.length st.pf.length a st).2.df = df0 ∧
       (initRollbackWith (initBranch q sc ebf ebb rs cs bfuel)
         df0.length st.pf.length a st).2.pf = st.pf) :=
  ⟨fun q sc ebf ebb rs cs bfuel i st h =>
     rootInitRollbackWith_restores q sc ebf ebb rs cs bfuel i st h,
   fun q sc ebf ebb rs cs bfuel d tf bf tb bb st h =>
     bounce_restores q sc ebf ebb rs cs bfuel d tf bf tb bb st h,
   fun q sc ebf ebb rs cs bfuel a df0 st h1 h2 h3 =>
     initRollbackWith_restores q sc ebf ebb rs cs bfuel a df0 st h1 h2 h3⟩

/-- Concrete instantiation of the rollback property: a root init failing on
    an index with empty ranges restores the empty arenas, a failing bounce
    from the parent cdP restores the one-descent arena, and a failing branch
    init through the rollback wrapper restores the pre-allocation arenas. -/
theorem init_rollback_restores_witness :
    ((rootInitRollbackWith (initRoot cQ3 cScA cEbEmpty cEbEmpty cRoots cCs0 0)
        cStE.df.length cStE.pf.length 0 cStE.df.length
        { cStE with df := cStE.df ++ [default] }).2.df = cStE.df ∧
      (rootInitRollbackWith (initRoot cQ3 cScA cEbEmpty cEbEmpty cRoots cCs0 0)
        cStE.df.length cStE.pf.length 0 cStE.df.length
        { cStE with df := cStE.df ++ [default] }).2.pf = cStE.pf) ∧
    ((bounce cQ3 cScA cEbEmpty cEbEmpty cRoots cCs0 0 cdP 0 0 0 0 cStB).2.df =
        cStB.df ∧
      (bounce cQ3 cScA cEbEmpty cEbEmpty cRoots cCs0 0 cdP 0 0 0 0
        cStB).2.pf = cStB.pf) ∧
    ((initRollbackWith (initBranch cQ3 cScA cEb2 cEb2 cRoots cCs0 0)
        (List.length [cdP]) cSt4.pf.length cAArgs cSt4).2.df = [cdP] ∧
      (initRollbackWith (initBranch cQ3 cScA cEb2 cEb2 cRoots cCs0 0)
        (List.length [cdP]) cSt4.pf.length cAArgs cSt4).2.pf = cSt4.pf) :=
  ⟨init_rollback_restores.1 cQ3 cScA cEbEmpty cEbEmpty cRoots cCs0 0 0 cStE
     rfl,
   init_rollback_restores.2.1 cQ3 cScA cEbEmpty cEbEmpty cRoots cCs0 0 cdP
     0 0 0 0 cStB rfl,
   init_rollback_restores.2.2 cQ3 cScA cEb2 cEb2 cRoots cCs0 0 cAArgs [cdP]
     cSt4 rfl (by decide) rfl⟩

end Seed2
